import Mathlib

/-!
Verification of the traffic-proxy repository against its specification.

Each namespace below is a shallow embedding of one source file or function
group.  Go machine integers are modelled as Nat, Go byte slices as List Nat,
time.Time values as Nat, Go channels as explicit fields of a state record,
and fallible Go calls as Except values.  External collaborators (vehicle
reads, the md5 library, parsers, the regexp engine, geodata loaders) are
taken as explicit function arguments, so every definition stays executable.
-/

namespace Fetcher

/-- Vehicle types, from the constant provider package. -/
inductive VehicleType
  | file
  | http
  | compatible
deriving DecidableEq, Repr

/-- Errors a fetcher tick can produce. -/
inductive FErr
  | readErr
  | parseErr
  | writeErr
deriving DecidableEq, Repr

/-- The mutable fields of the Go struct fetcher[V] that the modelled
operations touch.  The done channel has capacity one, so it is a single
Bool flag; the ticker and the delayed-initial timer are presence flags. -/
structure FState where
  hash : List Nat
  updatedAt : Option Nat
  tmUpdateActive : Bool
  tickerPresent : Bool
  doneFull : Bool
deriving DecidableEq, Repr

/-- Outcome of fetcher.Update: error, unchanged payload, or a new value. -/
inductive Outcome (V : Type)
  | err (e : FErr)
  | same
  | changed (v : V)
deriving DecidableEq, Repr

/-- Result of one fetcher.Update call: the outcome, the new state, whether
os.Chtimes was invoked on the cache file, and whether safeWrite ran. -/
structure UpdateResult (V : Type) where
  outcome : Outcome V
  state : FState
  touchedMtime : Bool
  persisted : Bool
deriving DecidableEq, Repr

/-- fetcher.Update.  readRes is the vehicle.Read() result, md5 the digest
function, parse the payload parser, writeRes the safeWrite outcome that
would occur if the bytes were persisted, now the current time. -/
def update {V : Type} (md5 : List Nat → List Nat) (parse : List Nat → Except FErr V)
    (vt : VehicleType) (readRes : Except FErr (List Nat)) (writeRes : Except FErr Unit)
    (now : Nat) (st : FState) : UpdateResult V :=
  match readRes with
  | .error _ => ⟨.err .readErr, st, false, false⟩
  | .ok buf =>
    let hash := md5 buf
    if st.hash = hash then
      ⟨.same, { st with updatedAt := some now }, true, false⟩
    else
      match parse buf with
      | .error _ => ⟨.err .parseErr, st, false, false⟩
      | .ok v =>
        if vt ≠ .file then
          match writeRes with
          | .error _ => ⟨.err .writeErr, st, false, false⟩
          | .ok _ =>
            ⟨.changed v, { st with updatedAt := some now, hash := hash }, false, true⟩
        else
          ⟨.changed v, { st with updatedAt := some now, hash := hash }, false, false⟩

/-- One tick of fetcher.pullLoop: run Update, and when it reports a changed
payload invoke onUpdate once.  The second component lists the arguments of
the onUpdate invocations made during the tick. -/
def tick {V : Type} (md5 : List Nat → List Nat) (parse : List Nat → Except FErr V)
    (vt : VehicleType) (readRes : Except FErr (List Nat)) (writeRes : Except FErr Unit)
    (now : Nat) (hasOnUpdate : Bool) (st : FState) : UpdateResult V × List V :=
  let r := update md5 parse vt readRes writeRes now st
  match r.outcome with
  | .err _ => (r, [])
  | .same => (r, [])
  | .changed v => (r, if hasOnUpdate then [v] else [])

/-- fetcher.Destroy: stop the delayed-initial timer when present, then, when
a ticker exists, perform a non-blocking send on the capacity-one done
channel (select with a default case).  Always returns nil. -/
def destroy (st : FState) : Option FErr × FState :=
  let st1 := if st.tmUpdateActive then { st with tmUpdateActive := false } else st
  let st2 :=
    if st1.tickerPresent then
      if st1.doneFull then st1 else { st1 with doneFull := true }
    else st1
  (none, st2)

/-- newFetcher: a negative interval is clamped to zero, a ticker is created
only for a non-zero interval, and the done channel starts empty with
capacity one. -/
def newFetcher (interval : Int) : FState :=
  let i := if interval < 0 then 0 else interval
  { hash := List.replicate 16 0
    updatedAt := none
    tmUpdateActive := false
    tickerPresent := decide (i ≠ 0)
    doneFull := false }

end Fetcher

namespace Route

/-- strings.Cut with separator a single space: (before, after, found). -/
def cutSpace : List Char → List Char × List Char × Bool
  | [] => ([], [], false)
  | c :: cs =>
    if c = ' ' then ([], cs, true)
    else
      let r := cutSpace cs
      (c :: r.1, r.2.1, r.2.2)

/-- The characters of the literal string Bearer checked by the middleware. -/
def bearerChars : List Char := ['B', 'e', 'a', 'r', 'e', 'r']

/-- The authentication middleware of the control plane, returning true when
the request is passed to the inner handler and false when it is answered
with 401.  subtle.ConstantTimeCompare(a, b) == 1 is byte-list equality. -/
def authentication (secret : List Char) (isWsUpgrade : Bool)
    (authHeader queryToken : List Char) : Bool :=
  if secret = [] then true
  else if isWsUpgrade ∧ queryToken ≠ [] then
    decide (queryToken = secret)
  else
    let c := cutSpace authHeader
    let bearer := c.1
    let tokenFound :=
      if authHeader = [] then
        if queryToken ≠ [] then (queryToken, true) else (c.2.1, c.2.2)
      else (c.2.1, c.2.2)
    let hasInvalidHeader := decide (authHeader ≠ [] ∧ bearer ≠ bearerChars)
    let hasInvalidSecret := !tokenFound.2 || decide (tokenFound.1 ≠ secret)
    if hasInvalidHeader || hasInvalidSecret then false else true

end Route

namespace Dhcp

/-- IfaceTTL = 20 s. -/
def ifaceTTL : Nat := 20

/-- DHCPTTL = 1 h, in seconds. -/
def dhcpTTL : Nat := 3600

/-- Failures of interface resolution or IPv4 address picking. -/
inductive IErr
  | resolveErr
  | pickErr
deriving DecidableEq, Repr

/-- A *netip.Prefix allocation as handed out by PickIPv4Addr: ptr is the
Go pointer identity (two distinct allocations never share it, and a
pointer determines the value it points at), val the IPv4 prefix value it
holds.  The source compares d.ifaceAddr == addr, which on *netip.Prefix is
POINTER equality: a freshly allocated prefix compares unequal to the
stored one even when both hold the same address value. -/
structure Pfx where
  ptr : Nat
  val : Nat
deriving DecidableEq, Repr

/-- The dhcpClient fields read and written by invalidate and resolve.
ifaceAddr is the stored *netip.Prefix (none models the initial nil);
doneActive models d.done != nil, i.e. a resolution currently in flight. -/
structure DState where
  ifaceInvalidate : Nat
  dnsInvalidate : Nat
  ifaceAddr : Option Pfx
  doneActive : Bool
deriving DecidableEq, Repr

/-- dhcpClient.invalidate.  now is the current time; ifaceRes is the
combined outcome of iface.ResolveInterface plus PickIPv4Addr (external
packages that may return a fresh allocation on every call).  The guard
d.ifaceAddr == addr is pointer equality; since a ptr handle names one
allocation and determines the val it holds, it is embedded as equality of
the stored and picked Pfx records (nil == addr is false since addr is a
successful pick).  Returns ((invalidated, err), new state). -/
def invalidate (now : Nat) (ifaceRes : Except IErr Pfx) (st : DState) :
    (Bool × Option IErr) × DState :=
  if now < st.ifaceInvalidate then ((false, none), st)
  else
    let st1 := { st with ifaceInvalidate := now + ifaceTTL }
    match ifaceRes with
    | .error e => ((false, some e), st1)
    | .ok addr =>
      if now < st.dnsInvalidate ∧ st.ifaceAddr = some addr then ((false, none), st1)
      else
        ((!st.doneActive, none),
          { st1 with dnsInvalidate := now + dhcpTTL, ifaceAddr := some addr })

/-- dhcpClient.resolve spawns a fresh DHCP resolution goroutine exactly when
invalidate reports (true, nil); on an error it only records it, and
otherwise callers wait on the existing state. -/
def resolveSpawns (now : Nat) (ifaceRes : Except IErr Pfx) (st : DState) : Bool :=
  match invalidate now ifaceRes st with
  | ((inv, none), _) => inv
  | _ => false

end Dhcp

namespace SafeWrite

/-- File-system operations performed by safeWrite, recorded as a trace.
Paths are component lists relative to the os.OpenRoot root (the home
directory); the source strips the root from the incoming path first. -/
inductive FsOp
  | mkdir (d : List String)
  | openTrunc (p : List String)
  | writeFile (p : List String) (buf : List Nat)
  | rename (src dst : List String)
deriving DecidableEq, Repr

/-- A tiny file system: the set of existing directories and the file
contents, both under the root. -/
structure Fs where
  dirs : List (List String)
  files : List (List String × List Nat)
deriving DecidableEq, Repr

/-- Whether a directory exists; the root itself always does. -/
def dirExists (fs : Fs) (d : List String) : Bool :=
  d = [] ∨ d ∈ fs.dirs

/-- Content of a file, when present. -/
def readFileFs (fs : Fs) (p : List String) : Option (List Nat) :=
  (fs.files.find? (fun e => e.1 = p)).map (·.2)

/-- The component loop of safeWrite: walk the components of the directory,
and root.Mkdir every cumulative path that root.Stat reports as missing.
acc is the directory built so far. -/
def mkdirAll (comps : List String) (acc : List String) (fs : Fs) : Fs × List FsOp :=
  match comps with
  | [] => (fs, [])
  | s :: rest =>
    let d := acc ++ [s]
    let step :=
      if dirExists fs d then (fs, ([] : List FsOp))
      else ({ fs with dirs := fs.dirs ++ [d] }, [FsOp.mkdir d])
    let next := mkdirAll rest d step.1
    (next.1, step.2 ++ next.2)

/-- safeWrite: when root.Stat reports the directory of the target as
missing, create its components on demand; then open the target itself with
O_CREATE, O_WRONLY and O_TRUNC and write buf to it.  Returns the resulting
file system and the trace of operations.  Mkdir, open and write failures of
the OS are not modelled; the success path is total here. -/
def safeWrite (path : List String) (buf : List Nat) (fs : Fs) : Fs × List FsOp :=
  let dir := path.dropLast
  let made :=
    if dirExists fs dir then (fs, ([] : List FsOp))
    else mkdirAll dir [] fs
  let fs2 : Fs :=
    { made.1 with files := made.1.files.filter (fun e => ¬e.1 = path) ++ [(path, buf)] }
  (fs2, made.2 ++ [FsOp.openTrunc path, FsOp.writeFile path buf])

/-- Whether an operation is a rename. -/
def isRename : FsOp → Bool
  | .rename _ _ => true
  | _ => false

end SafeWrite

namespace Doh

/-- proxyTimeout = 10 s. -/
def proxyTimeout : Nat := 10

/-- resolver.DefaultDNSTimeout = 5 s. -/
def defaultDNSTimeout : Nat := 5

/-- A DNS message: its ID and an abstract handle for the rest (question and
records), which the client never alters. -/
structure Msg where
  id : Nat
  body : Nat
deriving DecidableEq, Repr

/-- The parts of a context.Context the exchange consults: an optional
deadline and the optional proxy name installed by resolver.WithProxy. -/
structure Ctx where
  deadline : Option Nat
  proxyVal : Option String
deriving DecidableEq, Repr

/-- The dohClient fields the modelled operations read. -/
structure DohClient where
  addr : String
  proxy : String
  resolved : Bool
  timeout : Nat
deriving DecidableEq, Repr

/-- Errors of an exchange. -/
inductive DErr
  | bootstrapErr
  | requestErr
deriving DecidableEq, Repr

/-- newDoHClient: the port defaults to 443, resolved is set when the URL
host already parses as an IP literal, and the default timeout is 10 s for a
client configured with a proxy and the 5 s DNS default otherwise.
isIPAddr models netip.ParseAddr succeeding. -/
def newDoHClient (isIPAddr : String → Bool) (host port proxy : String) : DohClient :=
  let port1 := if port = "" then "443" else port
  { addr := host ++ ":" ++ port1
    proxy := proxy
    resolved := isIPAddr host
    timeout := if ¬proxy = "" then proxyTimeout else defaultDNSTimeout }

/-- What one dohClient.ExchangeContext call did: the message packed into
the wire request (none when it never got that far), the timeout budget the
client imposed via context.WithTimeout (none when the caller already had a
deadline or the call failed earlier), the proxy the request was routed
through, and the result handed back. -/
structure ExchangeTrace where
  wire : Option Msg
  imposedTimeout : Option Nat
  effectiveProxy : String
  result : Except DErr Msg
deriving Repr

/-- dohClient.ExchangeContext.  bootstrapRes is the outcome of the
LookupIPByResolver bootstrap used when the client address is not yet
resolved; reply is the outcome of doRequest.  The wire request is built
from a copy of m whose ID is forced to 0 (RFC 8484 cache friendliness), and
on success the ID of the reply is set back to the ID of m. -/
def exchangeContext (dc : DohClient) (ctx : Ctx) (m : Msg)
    (bootstrapRes : Except DErr Unit) (reply : Except DErr Msg) : ExchangeTrace :=
  match (if dc.resolved then Except.ok () else bootstrapRes) with
  | .error e => ⟨none, none, dc.proxy, .error e⟩
  | .ok _ =>
    let newM : Msg := { m with id := 0 }
    let proxy := match ctx.proxyVal with
      | some p => p
      | none => dc.proxy
    let imposed := match ctx.deadline with
      | some _ => none
      | none => some dc.timeout
    let result : Except DErr Msg := match reply with
      | .error e => .error e
      | .ok r => .ok { r with id := m.id }
    ⟨some newM, imposed, proxy, result⟩

end Doh

namespace Resolver

/-- Errors of the resolver package; fuelOut is an artifact of the bounded
recursion (the single self-call of lookupIPByResolverAndType) and is
unreachable with the fuel used by the wrappers. -/
inductive RErr
  | ipv6Disabled
  | ipVersion
  | ipNotFound
  | upstreamErr
  | fuelOut
deriving DecidableEq, Repr

/-- Outcome of the top-level resolve functions: an address, a propagated
lookup error, or the runtime panic of evaluating ips[rand.IntN(len(ips))]
on an empty slice. -/
inductive ResolveOut
  | ok (a : Nat)
  | err (e : RErr)
  | panicEmptyList
deriving DecidableEq, Repr

/-- Query types: typeNone, typeA, typeAAAA. -/
inductive QType
  | qnone
  | qa
  | qaaaa
deriving DecidableEq, Repr

/-- The Resolver interface restricted to the methods these functions call.
Modelled from the spec: the DNS resolver implementation is not part of the
extract; a lookup either fails (resolver-not-found and friends) or yields
an answer list. -/
structure ResolverM where
  lookupIP : String → Except RErr (List Nat)
  lookupIPv4 : String → Except RErr (List Nat)
  lookupIPv6 : String → Except RErr (List Nat)

/-- Ambient environment of the resolver package: addresses are abstract Nat
handles, unmap is netip.Addr.Unmap, hosts is DefaultHosts.Search, parseAddr
is netip.ParseAddr, osLookup is net.DefaultResolver.LookupIP keyed by
network then host, and dr is the DefaultResolver global. -/
structure Env where
  unmap : Nat → Nat
  is4 : Nat → Bool
  is6 : Nat → Bool
  hosts : String → Option Nat
  parseAddr : String → Option Nat
  osLookup : String → String → Except RErr (List Nat)
  disableIPv6 : Bool
  dr : Option ResolverM

/-- The tail of lookupIPByResolverAndType past the resolver dispatch: try
netip.ParseAddr on the host, else ask the OS resolver, rejecting an empty
answer with ErrIPNotFound. -/
def lookupFinal (env : Env) (t : QType) (host : String) : Except RErr (List Nat) :=
  match env.parseAddr host with
  | some ip0 =>
    let ip := if t ≠ .qaaaa then env.unmap ip0 else ip0
    if (t = .qa ∧ ¬env.is4 ip) ∨ (t = .qaaaa ∧ env.is4 ip) then .error .ipVersion
    else .ok [ip]
  | none =>
    let network := if t = .qa then "ip4" else if t = .qaaaa then "ip6" else "ip"
    match env.osLookup network host with
    | .error e => .error e
    | .ok ips =>
      if ips.length = 0 then .error .ipNotFound
      else .ok (ips.map (fun item => if t ≠ .qaaaa then env.unmap item else item))

/-- The fallthrough of lookupIPByResolverAndType past the hosts block: with
a resolver, dispatch on the query type; without one, the branch for
typeNone under disabled IPv6 re-enters the global LookupIPv4 (passed here
as recurse, the one recursive occurrence of the source function), and
everything else reaches the parse-or-OS tail. -/
def lookupRestB (env : Env) (recurse : Unit → Except RErr (List Nat)) (r : Option ResolverM)
    (t : QType) (both : Bool) (host : String) : Except RErr (List Nat) :=
  match r with
  | some rm =>
    if t = .qa then rm.lookupIPv4 host
    else if t = .qaaaa then rm.lookupIPv6 host
    else if env.disableIPv6 ∧ ¬both then rm.lookupIPv4 host
    else rm.lookupIP host
  | none =>
    if t = .qnone ∧ env.disableIPv6 then recurse ()
    else lookupFinal env t host

/-- The body of lookupIPByResolverAndType: the disabled-IPv6 guard, the
DefaultHosts consultation (answering only when the stored address fits the
requested family, else falling through), then the rest. -/
def lookupBody (env : Env) (recurse : Unit → Except RErr (List Nat)) (r : Option ResolverM)
    (t : QType) (both : Bool) (host : String) : Except RErr (List Nat) :=
  if t = .qaaaa ∧ env.disableIPv6 ∧ ¬both then .error .ipv6Disabled
  else
    match env.hosts host with
    | some ip0 =>
      if t = .qnone ∨ (t = .qa ∧ env.is4 (if t ≠ .qaaaa then env.unmap ip0 else ip0)) ∨
          (t = .qaaaa ∧ env.is6 (if t ≠ .qaaaa then env.unmap ip0 else ip0)) then
        .ok [if t ≠ .qaaaa then env.unmap ip0 else ip0]
      else lookupRestB env recurse r t both host
    | none => lookupRestB env recurse r t both host

/-- The global LookupIPv4 with the DefaultResolver, as invoked from the
recursive branch.  At typeA the recursive branch of the body is statically
unreachable (it requires typeNone), so its occurrence is stubbed with the
fuelOut marker. -/
def lookupIPv4Global (env : Env) (host : String) : Except RErr (List Nat) :=
  lookupBody env (fun _ => .error .fuelOut) env.dr .qa false host

/-- lookupIPByResolverAndType, its single recursive occurrence tied to the
global LookupIPv4. -/
def lookupIPByResolverAndType (env : Env) (r : Option ResolverM) (t : QType) (both : Bool)
    (host : String) : Except RErr (List Nat) :=
  lookupBody env (fun _ => lookupIPv4Global env host) r t both host

/-- resolveIPByType: dispatch the lookup on the query type through the
DefaultResolver, then pick ips[rand.IntN(len(ips))]; randVal models the
random draw.  Indexing an empty nil-error answer is the modelled panic. -/
def resolveIPByType (env : Env) (randVal : Nat) (host : String) (t : QType) : ResolveOut :=
  let res :=
    match t with
    | .qnone => lookupIPByResolverAndType env env.dr .qnone false host
    | .qa => lookupIPByResolverAndType env env.dr .qa false host
    | .qaaaa => lookupIPByResolverAndType env env.dr .qaaaa false host
  match res with
  | .error e => .err e
  | .ok ips =>
    if h : 0 < ips.length then .ok (ips.get ⟨randVal % ips.length, Nat.mod_lt _ h⟩)
    else .panicEmptyList

/-- resolveProxyServerHostByType: same shape, with the proxy-server context
and the needProxyHostIPv6 flag passed as the combined-families flag. -/
def resolveProxyServerHostByType (env : Env) (needProxyHostIPv6 : Bool) (randVal : Nat)
    (host : String) (t : QType) : ResolveOut :=
  match lookupIPByResolverAndType env env.dr t needProxyHostIPv6 host with
  | .error e => .err e
  | .ok ips =>
    if h : 0 < ips.length then .ok (ips.get ⟨randVal % ips.length, Nat.mod_lt _ h⟩)
    else .panicEmptyList

/-- The implicit contract of the missing Resolver implementation, modelled
from the spec: a lookup that returns without error found at least one
address (the not-found case is an error, answered as NXDOMAIN). -/
def GoodResolver (rm : ResolverM) : Prop :=
  (∀ h l, rm.lookupIP h = .ok l → l ≠ []) ∧
  (∀ h l, rm.lookupIPv4 h = .ok l → l ≠ []) ∧
  (∀ h l, rm.lookupIPv6 h = .ok l → l ≠ [])

end Resolver

namespace Config

/-- The shapes a parsed proxy adapter can take, for the purposes of the
name-space invariants: the two built-ins, user leaves, user groups, and the
GLOBAL selector built at the end of parseProxies. -/
inductive AdapterKind
  | direct
  | reject
  | leaf (tag : Nat)
  | group (tag : Nat)
  | globalSel
deriving DecidableEq, Repr

/-- A named proxy. -/
structure Proxy where
  name : String
  kind : AdapterKind
deriving DecidableEq, Repr

/-- The proxies Go map.  Assignment conses a binding; lookup takes the
newest one, which is exactly the overwrite semantics of the map. -/
abbrev PMap := List (String × Proxy)

/-- Map lookup. -/
def pfind (m : PMap) (k : String) : Option Proxy :=
  (m.find? (fun e => decide (e.1 = k))).map (·.2)

/-- Map assignment. -/
def pinsert (m : PMap) (k : String) (p : Proxy) : PMap :=
  (k, p) :: m

/-- A raw proxy-group mapping: whether mapping name is a string, plus an
abstract handle for the rest of the mapping. -/
structure GroupMapping where
  gname : Option String
  body : Nat
deriving DecidableEq, Repr

/-- The built-in DIRECT adapter wrapped as a proxy. -/
def directProxy : Proxy := ⟨"DIRECT", .direct⟩

/-- The built-in REJECT adapter wrapped as a proxy. -/
def rejectProxy : Proxy := ⟨"REJECT", .reject⟩

/-- The GLOBAL selector proxy. -/
def globalProxy : Proxy := ⟨"GLOBAL", .globalSel⟩

/-- The leaf-proxy loop of parseProxies: each element is the outcome of
adapter.ParseProxy on one mapping; a name already bound is the duplicate
error, otherwise the proxy is added to the map and to proxyList. -/
def parseLeafLoop :
    List (Except String Proxy) → PMap → List String → Except String (PMap × List String)
  | [], m, pl => .ok (m, pl)
  | r :: rest, m, pl =>
    match r with
    | .error e => .error e
    | .ok p =>
      if (pfind m p.name).isSome then .error ("proxy " ++ p.name ++ " is the duplicate name")
      else parseLeafLoop rest (pinsert m p.name p) (pl ++ [p.name])

/-- The group-name collection loop: mapping name must be a string; names
are appended to proxyList in config order. -/
def collectGroupNames : List GroupMapping → Except String (List String)
  | [] => .ok []
  | g :: rest =>
    match g.gname with
    | none => .error "proxy group: missing name"
    | some n =>
      match collectGroupNames rest with
      | .error e => .error e
      | .ok ns => .ok (n :: ns)

/-- The group-parse loop, run over the DAG-sorted group list: a group whose
name is already bound is the duplicate error. -/
def parseGroupLoop (parseGroup : GroupMapping → Except String Proxy) :
    List GroupMapping → PMap → Except String PMap
  | [], m => .ok m
  | g :: rest, m =>
    match parseGroup g with
    | .error e => .error e
    | .ok p =>
      if (pfind m p.name).isSome then .error ("proxy group " ++ p.name ++ ": the duplicate name")
      else parseGroupLoop parseGroup rest (pinsert m p.name p)

/-- Result of parseProxies: the proxies map, and the proxy list handed to
the reserved default compatible provider that backs the GLOBAL selector
(ps in the source).  A none entry models the nil a Go map lookup yields for
an absent name. -/
structure ParsedProxies where
  proxies : PMap
  globalProvider : List (Option Proxy)

/-- parseProxies.  parseLeafRes are the adapter.ParseProxy outcomes in
config order; dagSort is proxyGroupsDagSort (checks for cycles and sorts
in place); parseGroup is outboundgroup.ParseProxyGroup against the current
maps; providersStep and compatStep stand for the proxy-provider parse,
initial and compatible-initial loops, which touch neither the proxies map
nor proxyList and can only fail the parse. -/
def parseProxies (parseLeafRes : List (Except String Proxy)) (groupsCfg : List GroupMapping)
    (dagSort : List GroupMapping → Except String (List GroupMapping))
    (providersStep : Except String Unit) (parseGroup : GroupMapping → Except String Proxy)
    (compatStep : Except String Unit) : Except String ParsedProxies :=
  let m0 := pinsert (pinsert [] "DIRECT" directProxy) "REJECT" rejectProxy
  let pl0 := ["DIRECT", "REJECT"]
  match parseLeafLoop parseLeafRes m0 pl0 with
  | .error e => .error e
  | .ok (m1, pl1) =>
    match collectGroupNames groupsCfg with
    | .error e => .error e
    | .ok gnames =>
      let pl2 := pl1 ++ gnames
      match dagSort groupsCfg with
      | .error e => .error e
      | .ok sorted =>
        match providersStep with
        | .error e => .error e
        | .ok _ =>
          match parseGroupLoop parseGroup sorted m1 with
          | .error e => .error e
          | .ok m2 =>
            match compatStep with
            | .error e => .error e
            | .ok _ =>
              let ps := pl2.map (fun v => pfind m2 v)
              .ok ⟨pinsert m2 "GLOBAL" globalProxy, ps⟩

/-- The names of the successfully parsed leaf proxies, in config order. -/
def leafNamesOf (rs : List (Except String Proxy)) : List String :=
  rs.filterMap (fun r => match r with | .ok p => some p.name | .error _ => none)

end Config

namespace Rules

/-- Parsed rules are abstract handles; only the registration bookkeeping of
parseRawRules matters to the claims. -/
abbrev RRule := Nat

/-- C.ScriptRuleGeoSiteTarget.  Modelled from the spec: the constant
package is not in the extract; the sentinel is an opaque reserved target
tag, and only its identity is used. -/
def scriptRuleGeoSiteTarget : String := "__ScriptRuleGeoSiteTarget__"

/-- Go strings.ToUpper, as a map over the characters (rule names and
provider names are ASCII). -/
def toUpperS (s : String) : String := ⟨s.data.map Char.toUpper⟩

/-- Go strings.ToLower, as a map over the characters. -/
def toLowerS (s : String) : String := ⟨s.data.map Char.toLower⟩

/-- External collaborators of the rule parser: frpn is
findRuleProvidersName (whose body is the external regexp engine applied to
the two reference patterns, then lo.Uniq); parseRuleF is R.ParseRule;
newGEOSITE is R.NewGEOSITE (which loads geodata and can fail); newMatcherF
and newExprMatcherF are the script matcher builders; isScriptRule reports
whether R.ParseRule produced a *R.Script; mkGroupRule is R.NewGroup;
cleanScript is cleanScriptKeywords (also regexp based); trimSpace is
strings.TrimSpace and flattenCRLF the pair of strings.ReplaceAll calls
mapping carriage returns and newlines to spaces. -/
structure REnv where
  frpn : String → List String
  parseRuleF : String → String → String → List String → Except String RRule
  newGEOSITE : String → String → Except String RRule
  newMatcherF : String → String → String → Except String Unit
  newExprMatcherF : String → String → Except String Unit
  isScriptRule : RRule → Bool
  mkGroupRule : String → RRule
  cleanScript : String → String
  trimSpace : String → String
  flattenCRLF : String → String

/-- The ruleProviders map. -/
abbrev RPMap := List (String × RRule)

/-- Lookup in the ruleProviders map. -/
def rfind (m : RPMap) (k : String) : Option RRule :=
  (m.find? (fun e => decide (e.1 = k))).map (·.2)

/-- The matchers map (matcher values are irrelevant to the claims). -/
abbrev MMap := List (String × Unit)

/-- Lookup in the matchers map. -/
def mfind (m : MMap) (k : String) : Option Unit :=
  (m.find? (fun e => decide (e.1 = k))).map (·.2)

/-- A raw rule: the skipped empty entry, a rule line kept as its raw
comma-joined string exactly as the source stores it (parseRawRules
re-splits it on commas), or a nested group rule with name, if expression,
engine and sub-rules.  A .line is a raw rule whose Line is non-empty; an
empty Line is .skip or .group according to Name. -/
inductive RawRule where
  | skip
  | line (s : String)
  | group (name ifExpr engine : String) (rules : List RawRule)
deriving Repr

/-- strings.Split on the comma separator, over the character list. -/
def splitComma : List Char → List (List Char)
  | [] => [[]]
  | c :: rest =>
    if c = ',' then [] :: splitComma rest
    else
      match splitComma rest with
      | [] => [[c]]
      | f :: fs => (c :: f) :: fs

/-- strings.TrimSpace over the character list: drop whitespace from both
ends. -/
def trimChars (cs : List Char) : List Char :=
  ((cs.dropWhile Char.isWhitespace).reverse.dropWhile Char.isWhitespace).reverse

/-- rule := trimArr(strings.Split(line, ",")): the comma fields of a
rule line, each trimmed.  Modelled from the spec: trimArr itself is outside
the extract; it maps strings.TrimSpace over the fields (here over the
standard whitespace characters, the only ones rule lines carry). -/
def splitTrim (s : String) : List String :=
  (splitComma s.data).map (fun cs => ⟨trimChars cs⟩)

/-- A provider name the auto-registration round-trips intact: no comma
(the comma re-split of the emitted line would cut it apart) and no
whitespace (the extracting regexp captures non-space runs, so none
occurs in practice). -/
def plainName (s : String) : Bool :=
  s.data.all (fun c => (c != ',') && !c.isWhitespace)

/-- The auto-registration loop on a group rule's if expression: every
extracted name is lowercased; a name already registered is skipped, a
NewGEOSITE failure is silently ignored, otherwise the provider is
registered. -/
def registerFromIf (env : REnv) (names : List String) (rps : RPMap) : RPMap :=
  match names with
  | [] => rps
  | v0 :: rest =>
    let v := toLowerS v0
    let rps1 :=
      if (rfind rps v).isSome then rps
      else
        match env.newGEOSITE v scriptRuleGeoSiteTarget with
        | .error _ => rps
        | .ok rpd => (v, rpd) :: rps
    registerFromIf env rest rps1

/-- ruleName: the first comma field, uppercased. -/
def lineRuleName (fields : List String) : String :=
  toUpperS (fields.headD "")

/-- The field list padded with empty strings up to four entries. -/
def linePadded (fields : List String) : List String :=
  if fields.length < 4 then fields ++ List.replicate (4 - fields.length) "" else fields

/-- The l cursor after the MATCH special case. -/
def lineL1 (fields : List String) : Nat :=
  if lineRuleName fields = "MATCH" then 2 else fields.length

/-- The final cursor and the payload: with at least three fields the
payload is rule[1] and the cursor lands on 3, otherwise the payload is
empty. -/
def lineLp (fields : List String) : Nat × String :=
  if lineL1 fields ≥ 3 then (3, (linePadded fields).getD 1 "") else (lineL1 fields, "")

/-- payload = rule[1] when present. -/
def linePayload (fields : List String) : String :=
  (lineLp fields).2

/-- target = rule[l-1]. -/
def lineTarget (fields : List String) : String :=
  (linePadded fields).getD ((lineLp fields).1 - 1) ""

/-- params = rule[l:] (trimArr is the identity on already-trimmed
fields). -/
def lineParams (fields : List String) : List String :=
  (linePadded fields).drop (lineLp fields).1

/-- parseRawRules: walk the raw rules, parse each line, recurse into group
rules, and thread the ruleProviders and matchers maps.  proxies is the name
set of the proxies map used for the target check.  The fuel argument only
bounds the recursion depth so that the definition stays structural; any
fuel at least the size of the rule list (the wrappers use exactly that)
never hits the exhausted case. -/
def parseRawRules (env : REnv) (proxies : List String) :
    Nat → List RawRule → RPMap → MMap → Except String (List RRule × RPMap × MMap)
  | 0, _, _, _ => .error "recursion budget exhausted"
  | _ + 1, [], rps, ms => .ok ([], rps, ms)
  | fuel + 1, .skip :: rest, rps, ms => parseRawRules env proxies fuel rest rps ms
  | fuel + 1, .group name ifExpr engine subs :: rest, rps, ms =>
    if (mfind ms ("rule:" ++ name)).isSome then
      .error ("parse rule " ++ name ++ " failed, rule name is exist")
    else
      match (if engine = "expr" then env.newExprMatcherF name ifExpr
             else env.newMatcherF name "" ifExpr) with
      | .error e => .error e
      | .ok _ =>
        match parseRawRules env proxies fuel subs rps (("rule:" ++ name, ()) :: ms) with
        | .error e => .error e
        | .ok (_, rps1, ms2) =>
          match parseRawRules env proxies fuel rest
              (registerFromIf env (env.frpn ifExpr) rps1) ms2 with
          | .error e => .error e
          | .ok (rules, rps3, ms3) => .ok (env.mkGroupRule name :: rules, rps3, ms3)
  | fuel + 1, .line s :: rest, rps, ms =>
    let fields := splitTrim s
    if fields.length < 2 then .error "format invalid"
    else if ¬proxies.contains (lineTarget fields) ∧ lineRuleName fields ≠ "GEOSITE" ∧
        lineTarget fields ≠ scriptRuleGeoSiteTarget then
      .error ("proxy " ++ lineTarget fields ++ " not found")
    else if lineRuleName fields = "GEOSITE" ∧ lineTarget fields = scriptRuleGeoSiteTarget ∧
        (rfind rps (toLowerS (linePayload fields))).isSome then
      parseRawRules env proxies fuel rest rps ms
    else
      match env.parseRuleF (lineRuleName fields) (linePayload fields) (lineTarget fields)
          (lineParams fields) with
      | .error e => .error e
      | .ok parsed =>
        if env.isScriptRule parsed ∧ (mfind ms (linePayload fields)).isNone then
          .error ("shortcut name " ++ linePayload fields ++ " not found")
        else
          match parseRawRules env proxies fuel rest
              (if lineRuleName fields = "GEOSITE" ∧
                  ¬(rfind rps (toLowerS (linePayload fields))).isSome then
                (toLowerS (linePayload fields), parsed) :: rps
              else rps) ms with
          | .error e => .error e
          | .ok (rules, rps2, ms2) => .ok (parsed :: rules, rps2, ms2)

/-- The default main script used when the configured code is blank. -/
def defaultMainCode : String := "\ndef main(ctx, metadata):\n  return \"DIRECT\"\n"

/-- The shortcut compilation loop of parseScript: duplicate names and blank
code fail; carriage returns and newlines of the code are flattened to
spaces; each shortcut's code is appended to the scanned content.  Shortcut
order models one iteration order of the Go map. -/
def shortcutLoop (env : REnv) (engine : String) :
    List (String × String) → MMap → String → Except String (MMap × String)
  | [], ms, content => .ok (ms, content)
  | (k, v0) :: rest, ms, content =>
    if (mfind ms k).isSome then .error ("shortcut name " ++ k ++ " is exist")
    else
      let v1 := env.trimSpace v0
      if v1 = "" then .error ("shortcut " ++ k ++ " code syntax invalid")
      else
        let v := env.flattenCRLF v1
        match (if engine = "expr" then env.newExprMatcherF k v else env.newMatcherF k "" v) with
        | .error e => .error e
        | .ok _ => shortcutLoop env engine rest ((k, ()) :: ms) (content ++ v ++ "\n")

/-- parseScript: build the main matcher and the shortcut matchers, then
extract every rule-provider reference from the accumulated content and
append one GEOSITE raw line per reference, targeted at the script
sentinel.  readFileRes is the outcome of reading mainPath when set.
Returns the matchers, the extended raw rules, and the scanned content. -/
def parseScript (env : REnv) (engine mainPath mainCodeIn : String)
    (shortcuts : List (String × String)) (readFileRes : Except String String)
    (rawRules : List RawRule) : Except String (MMap × List RawRule × String) :=
  if shortcuts ≠ [] ∧ engine ≠ "expr" ∧ engine ≠ "starlark" then
    .error "invalid script shortcut engine"
  else
    let mainRes : Except String String :=
      if mainPath ≠ "" then
        if ¬mainPath.endsWith ".star" then .error "script path invalid"
        else readFileRes
      else .ok mainCodeIn
    match mainRes with
    | .error e => .error e
    | .ok mc0 =>
      let mainCode := if env.trimSpace mc0 = "" then defaultMainCode else env.cleanScript mc0
      let content := mainCode ++ "\n"
      match env.newMatcherF "main" "" mainCode with
      | .error e => .error e
      | .ok _ =>
        match shortcutLoop env engine shortcuts [("main", ())] content with
        | .error e => .error e
        | .ok (ms1, content1) =>
          let auto := (env.frpn content1).map
            (fun v => RawRule.line ("GEOSITE," ++ v ++ "," ++ scriptRuleGeoSiteTarget))
          .ok (ms1, rawRules ++ auto, content1)

/-- All provider names referenced from the if expression of any group rule
in a raw rule list, at any depth. -/
def collectIfNames (env : REnv) : List RawRule → List String
  | [] => []
  | .group _ ifExpr _ subs :: rest =>
    env.frpn ifExpr ++ collectIfNames env subs ++ collectIfNames env rest
  | .skip :: rest => collectIfNames env rest
  | .line _ :: rest => collectIfNames env rest

end Rules

/-!
Theorems.  Each claim has exactly one theorem; corrected claims also have a
closed counterexample refuting the claim as stated, and theorems with
hypotheses have a closed witness instantiating them.
-/

/-- C8: fetcher.Destroy is idempotent and total: it always returns nil, and
a second call (from any state, in particular one where no pull loop runs)
is a no-op, because shutdown is a non-blocking send on the single-slot done
channel. -/
theorem destroy_idempotent_nil (st : Fetcher.FState) :
    (Fetcher.destroy st).1 = none ∧
    Fetcher.destroy (Fetcher.destroy st).2 = Fetcher.destroy st := by
  refine ⟨rfl, ?_⟩
  unfold Fetcher.destroy
  by_cases h1 : st.tmUpdateActive <;> by_cases h2 : st.tickerPresent <;>
    by_cases h3 : st.doneFull <;> simp [h1, h2, h3]

/-- C1: on a fetcher tick, when the fetched bytes hash to the previous
payload hash the tick only refreshes updatedAt and touches the file mtime
and makes no onUpdate call; when the hash differs and parsing and
persisting succeed, the state records the new hash, the bytes are persisted
(the tick runs on a non-file vehicle, the only kind Initial starts a pull
loop for), and onUpdate is invoked exactly once with the parsed value. -/
theorem tick_md5_dedup {V : Type} (md5 : List Nat → List Nat)
    (parse : List Nat → Except Fetcher.FErr V) (vt : Fetcher.VehicleType)
    (readRes : Except Fetcher.FErr (List Nat)) (writeRes : Except Fetcher.FErr Unit)
    (now : Nat) (st : Fetcher.FState) (buf : List Nat) (v : V)
    (hread : readRes = .ok buf) :
    (md5 buf = st.hash →
      Fetcher.tick md5 parse vt readRes writeRes now true st =
        (⟨.same, { st with updatedAt := some now }, true, false⟩, [])) ∧
    (md5 buf ≠ st.hash → parse buf = .ok v → vt ≠ .file → writeRes = .ok () →
      Fetcher.tick md5 parse vt readRes writeRes now true st =
        (⟨.changed v, { st with updatedAt := some now, hash := md5 buf }, false, true⟩, [v])) := by
  subst hread
  constructor
  · intro hsame
    simp [Fetcher.tick, Fetcher.update, hsame.symm]
  · intro hdiff hparse hvt hwrite
    have hne : ¬st.hash = md5 buf := fun h => hdiff h.symm
    simp [Fetcher.tick, Fetcher.update, hne, hparse, hvt, hwrite]

/-- Witness for C1 at a concrete changed payload. -/
theorem tick_md5_dedup_witness :
    Fetcher.tick (fun b => b) (fun b => Except.ok b.length) .http (.ok [1, 2]) (.ok ()) 5 true
        ⟨[9], none, false, true, false⟩ =
      (⟨.changed 2, ⟨[1, 2], some 5, false, true, false⟩, false, true⟩, [2]) :=
  (tick_md5_dedup (fun b => b) (fun b => Except.ok b.length) .http (.ok [1, 2]) (.ok ()) 5
    ⟨[9], none, false, true, false⟩ [1, 2] 2 rfl).2 (by decide) rfl (by decide) rfl

/-- C7 counterexample: within the 1 h TTL and with the interface address
VALUE unchanged (both prefixes hold 9), the freshly allocated prefix
(pointer handle 2 versus stored handle 1, as after an iface cache rebuild)
fails the pointer-equality gate d.ifaceAddr == addr and a new DHCP
resolution is spawned, refuting the claim that none is issued while the
cached result is younger than 1 h and the address is unchanged. -/
theorem dhcp_ttl_claim_counterexample :
    Dhcp.resolveSpawns 50 (.ok ⟨2, 9⟩) ⟨0, 100, some ⟨1, 9⟩, false⟩ = true ∧
    (Dhcp.Pfx.mk 1 9).val = (Dhcp.Pfx.mk 2 9).val ∧
    50 < (Dhcp.DState.mk 0 100 (some ⟨1, 9⟩) false).dnsInvalidate :=
  ⟨rfl, rfl, by decide⟩

/-- C7 amended: the DHCP client spawns a fresh DHCP resolution neither
while the cached result is younger than the 1 h TTL with the iface lookup
returning the very prefix object already stored (pointer equality), nor
while one is already in flight; whenever it does spawn, the TTL had
expired or the lookup returned a different prefix object (possibly holding
an unchanged address), and no resolution was in flight. -/
theorem dhcp_resolution_gated (now : Nat) (st : Dhcp.DState) (addr : Dhcp.Pfx) :
    ((now < st.dnsInvalidate ∧ st.ifaceAddr = some addr) →
      Dhcp.resolveSpawns now (.ok addr) st = false) ∧
    (Dhcp.resolveSpawns now (.ok addr) st = true →
      (st.dnsInvalidate ≤ now ∨ st.ifaceAddr ≠ some addr) ∧ st.doneActive = false) := by
  have hkey : Dhcp.resolveSpawns now (.ok addr) st =
      (decide (¬now < st.ifaceInvalidate) &&
        (decide (¬(now < st.dnsInvalidate ∧ st.ifaceAddr = some addr)) && !st.doneActive)) := by
    unfold Dhcp.resolveSpawns Dhcp.invalidate
    by_cases h1 : now < st.ifaceInvalidate <;>
      by_cases h2 : now < st.dnsInvalidate ∧ st.ifaceAddr = some addr <;> simp [h1, h2]
  constructor
  · intro hy
    rw [hkey]
    simp [hy]
  · intro hspawn
    rw [hkey] at hspawn
    simp only [Bool.and_eq_true, decide_eq_true_eq, Bool.not_eq_true'] at hspawn
    obtain ⟨-, h2, h3⟩ := hspawn
    rw [Classical.not_and_iff_or_not_not] at h2
    exact ⟨h2.imp (fun h => by omega) id, h3⟩

/-- Witness for C7 amended: a young cache handed the stored prefix object
itself spawns nothing. -/
theorem dhcp_resolution_gated_witness :
    Dhcp.resolveSpawns 50 (.ok ⟨7, 9⟩) ⟨0, 100, some ⟨7, 9⟩, false⟩ = false :=
  (dhcp_resolution_gated 50 ⟨0, 100, some ⟨7, 9⟩, false⟩ ⟨7, 9⟩).1 ⟨by decide, rfl⟩

namespace SafeWrite

/-- Every operation emitted by the mkdir loop is a mkdir. -/
theorem mkdirAll_ops_mkdir (comps acc : List String) (fs : Fs) :
    ∀ op ∈ (mkdirAll comps acc fs).2, ∃ d, op = FsOp.mkdir d := by
  induction comps generalizing acc fs with
  | nil => simp [mkdirAll]
  | cons s rest ih =>
    intro op hop
    simp only [mkdirAll, List.mem_append] at hop
    rcases hop with hop | hop
    · by_cases hx : dirExists fs (acc ++ [s]) <;> simp [hx] at hop
      exact ⟨acc ++ [s], hop⟩
    · by_cases hx : dirExists fs (acc ++ [s]) <;> simp only [hx] at hop
      · exact ih _ _ _ hop
      · simp at hop
        exact ih _ _ _ hop

/-- Directory existence is monotone along the mkdir loop. -/
theorem mkdirAll_dirs_mono (comps acc : List String) (fs : Fs) (d : List String)
    (hd : dirExists fs d = true) : dirExists (mkdirAll comps acc fs).1 d = true := by
  induction comps generalizing acc fs with
  | nil => simp [mkdirAll, hd]
  | cons s rest ih =>
    simp only [mkdirAll]
    by_cases hx : dirExists fs (acc ++ [s])
    · simp only [hx, if_true]
      exact ih _ _ hd
    · simp only [hx, Bool.false_eq_true, if_false]
      refine ih _ _ ?_
      simp only [dirExists, List.mem_append, decide_eq_true_eq] at hd ⊢
      tauto

/-- Every mkdir emitted by the loop targets a directory missing from the
file system the loop started from. -/
theorem mkdirAll_on_demand (comps acc : List String) (fs : Fs) (d : List String)
    (hop : FsOp.mkdir d ∈ (mkdirAll comps acc fs).2) : dirExists fs d = false := by
  induction comps generalizing acc fs with
  | nil => simp [mkdirAll] at hop
  | cons s rest ih =>
    simp only [mkdirAll, List.mem_append] at hop
    by_cases hx : dirExists fs (acc ++ [s])
    · simp only [hx, if_true] at hop
      rcases hop with hop | hop
      · simp at hop
      · exact ih _ _ hop
    · simp only [hx, Bool.false_eq_true, if_false] at hop
      rcases hop with hop | hop
      · simp only [List.mem_singleton, FsOp.mkdir.injEq] at hop
        subst hop
        simpa using hx
      · have hfalse := ih _ _ hop
        by_contra hcon
        have hd : dirExists fs d = true := by
          cases hdec : dirExists fs d
          · exact absurd hdec hcon
          · rfl
        have htrue : dirExists { fs with dirs := fs.dirs ++ [acc ++ [s]] } d = true := by
          simp only [dirExists, List.mem_append, decide_eq_true_eq] at hd ⊢
          tauto
        rw [htrue] at hfalse
        simp at hfalse

end SafeWrite

/-- C3 counterexample: persisting two bytes to sub slash f.yaml on an empty
file system produces exactly a mkdir of the missing directory, an
open-with-truncate of the target itself, and a write to the target; no
temporary file is written and no rename happens, refuting the
write-to-temp-then-rename claim. -/
theorem safeWrite_no_rename_counterexample :
    (SafeWrite.safeWrite ["sub", "f.yaml"] [1, 2] ⟨[], []⟩).2 =
        [SafeWrite.FsOp.mkdir ["sub"], SafeWrite.FsOp.openTrunc ["sub", "f.yaml"],
          SafeWrite.FsOp.writeFile ["sub", "f.yaml"] [1, 2]] ∧
      ((SafeWrite.safeWrite ["sub", "f.yaml"] [1, 2] ⟨[], []⟩).2.all
        (fun op => !SafeWrite.isRename op)) = true := by
  constructor
  · rfl
  · decide

/-- C3 amended: safeWrite creates missing directory components on demand
and then writes the bytes directly into the target file, opened with
create, write-only and truncate; the final file system holds the full new
content at the target path, and the operation trace contains no rename (and
hence no temporary file plus atomic replace). -/
theorem safeWrite_direct_write (path : List String) (buf : List Nat) (fs : SafeWrite.Fs) :
    SafeWrite.readFileFs (SafeWrite.safeWrite path buf fs).1 path = some buf ∧
    SafeWrite.FsOp.openTrunc path ∈ (SafeWrite.safeWrite path buf fs).2 ∧
    (∀ op ∈ (SafeWrite.safeWrite path buf fs).2, SafeWrite.isRename op = false) ∧
    (∀ d, SafeWrite.FsOp.mkdir d ∈ (SafeWrite.safeWrite path buf fs).2 →
      SafeWrite.dirExists fs d = false) := by
  refine ⟨?_, ?_, ?_, ?_⟩
  · unfold SafeWrite.safeWrite
    by_cases hx : SafeWrite.dirExists fs path.dropLast <;>
      simp only [hx, Bool.false_eq_true, if_true, if_false] <;>
      simp [SafeWrite.readFileFs]
  · unfold SafeWrite.safeWrite
    by_cases hx : SafeWrite.dirExists fs path.dropLast <;> simp [hx]
  · intro op hop
    unfold SafeWrite.safeWrite at hop
    by_cases hx : SafeWrite.dirExists fs path.dropLast
    · simp only [hx, if_true] at hop
      simp only [List.nil_append, List.mem_cons, List.mem_singleton] at hop
      rcases hop with rfl | rfl | h
      · rfl
      · rfl
      · simp at h
    · simp only [hx, Bool.false_eq_true, if_false, List.mem_append] at hop
      rcases hop with hop | hop
      · obtain ⟨d, rfl⟩ := SafeWrite.mkdirAll_ops_mkdir _ _ _ op hop
        rfl
      · simp only [List.mem_cons, List.mem_singleton] at hop
        rcases hop with rfl | rfl | h
        · rfl
        · rfl
        · simp at h
  · intro d hop
    unfold SafeWrite.safeWrite at hop
    by_cases hx : SafeWrite.dirExists fs path.dropLast
    · simp only [hx, if_true, List.nil_append, List.mem_cons, List.mem_singleton] at hop
      rcases hop with h | h | h <;> simp_all
    · simp only [hx, Bool.false_eq_true, if_false, List.mem_append] at hop
      rcases hop with hop | hop
      · exact SafeWrite.mkdirAll_on_demand _ _ _ _ hop
      · simp only [List.mem_cons, List.mem_singleton] at hop
        rcases hop with h | h | h <;> simp_all

/-- Witness for C3 amended: the mkdir emitted on the concrete run above was
for a directory absent from the initial file system. -/
theorem safeWrite_direct_write_witness :
    SafeWrite.dirExists ⟨[], []⟩ ["sub"] = false :=
  (safeWrite_direct_write ["sub", "f.yaml"] [1, 2] ⟨[], []⟩).2.2.2 ["sub"] (by decide)

namespace Route

/-- cutSpace on a space-free chunk followed by a space. -/
theorem cutSpace_append (b a : List Char) (hb : ' ' ∉ b) :
    cutSpace (b ++ ' ' :: a) = (b, a, true) := by
  induction b with
  | nil => simp [cutSpace]
  | cons c cs ih =>
    have hc : ¬c = ' ' := fun h => hb (h ▸ List.mem_cons_self c cs)
    have ihs : cutSpace (cs ++ ' ' :: a) = (cs, a, true) :=
      ih (fun h => hb (List.mem_cons_of_mem c h))
    simp [cutSpace, hc, ihs]

/-- When cutSpace found a separator, the input splits as recorded. -/
theorem cutSpace_found (h : List Char) (b a : List Char)
    (hc : cutSpace h = (b, a, true)) : h = b ++ ' ' :: a := by
  induction h generalizing b a with
  | nil => simp [cutSpace] at hc
  | cons c cs ih =>
    by_cases hsp : c = ' '
    · subst hsp
      simp [cutSpace] at hc
      simp_all
    · rcases hcs : cutSpace cs with ⟨b1, a1, f1⟩
      simp only [cutSpace, hsp, if_false, hcs, Prod.mk.injEq] at hc
      obtain ⟨hb, ha, hf⟩ := hc
      subst hf
      rw [← hb, ← ha]
      exact congrArg (c :: ·) (ih b1 a1 hcs)

/-- The non-websocket branch with a non-empty Authorization header passes
exactly when the header cut yields the word Bearer, a found separator and
the secret as the remainder. -/
theorem auth_header_case (secret : List Char) (ws : Bool) (h q : List Char)
    (hs : ¬secret = []) (hw : ¬(ws ∧ q ≠ [])) (hh : ¬h = []) (b a : List Char) (f : Bool)
    (hcs : cutSpace h = (b, a, f)) :
    authentication secret ws h q =
      (decide (b = bearerChars) && (f && decide (a = secret))) := by
  unfold authentication
  simp only [hs, if_false, hw, hcs, hh]
  by_cases hb : b = bearerChars <;> cases f <;> by_cases ha : a = secret <;>
    simp [hb, ha, hh]

end Route

/-- C4 counterexample: with secret s, a request that carries the secret in
the token query parameter together with a malformed non-empty Authorization
header (Basic x) is rejected with 401, although the claim as stated demands
that it be passed to the handler. -/
theorem authentication_claim_counterexample :
    ¬(Route.authentication ['s'] false ['B', 'a', 's', 'i', 'c', ' ', 'x'] ['s'] = true ↔
      (['B', 'a', 's', 'i', 'c', ' ', 'x'] = Route.bearerChars ++ ' ' :: ['s'] ∨
        (['s'] : List Char) = ['s'])) := by
  decide

/-- C4 amended: with an empty secret every request passes.  With a
non-empty secret: a websocket upgrade carrying a non-empty token query
parameter passes iff that token equals the secret; otherwise, when the
Authorization header is empty the request passes iff the token query
parameter is non-empty and equals the secret, and when the Authorization
header is non-empty it passes iff the header is exactly the word Bearer, a
space, and the secret (the query parameter being ignored in that case);
every other request is answered 401. -/
theorem authentication_decision (secret : List Char) (ws : Bool) (h q : List Char) :
    Route.authentication secret ws h q = true ↔
      (secret = [] ∨
        (if ws ∧ q ≠ [] then q = secret
         else if h = [] then q ≠ [] ∧ q = secret
         else h = Route.bearerChars ++ ' ' :: secret)) := by
  by_cases hs : secret = []
  · simp [Route.authentication, hs]
  · by_cases hw : ws ∧ q ≠ []
    · simp [Route.authentication, hs, hw]
    · by_cases hh : h = []
      · subst hh
        by_cases hq : q = []
        · simp [Route.authentication, Route.cutSpace, hs, hw, hq]
        · simp [Route.authentication, Route.cutSpace, hs, hw, hq]
      · rcases hcs : Route.cutSpace h with ⟨b, a, f⟩
        rw [Route.auth_header_case secret ws h q hs hw hh b a f hcs]
        simp only [hs, false_or, hw, if_false, hh]
        cases f
        · have hnot : ¬h = Route.bearerChars ++ ' ' :: secret := by
            intro he
            rw [he, Route.cutSpace_append _ _ (by decide)] at hcs
            simp at hcs
          simp [hnot, hw, hh]
        · have hsplit := Route.cutSpace_found h b a hcs
          constructor
          · intro hpass
            simp only [Bool.and_eq_true, decide_eq_true_eq] at hpass
            rw [hsplit, hpass.1, hpass.2.2]
          · intro hrhs
            rw [hrhs, Route.cutSpace_append _ _ (by decide)] at hcs
            simp only [Prod.mk.injEq] at hcs
            simp [hcs.1.symm, hcs.2.1.symm]

/-- C6 counterexample: a client constructed without a proxy keeps its 5 s
default budget even when the query is routed through a per-query proxy
taken from the context, although the claim demands 10 s for every exchange
routed through a proxy. -/
theorem doh_timeout_counterexample :
    (Doh.exchangeContext (Doh.newDoHClient (fun _ => true) "9.9.9.9" "" "")
        ⟨none, some "P"⟩ ⟨7, 3⟩ (.ok ()) (.ok ⟨0, 3⟩)).effectiveProxy ≠ "" ∧
    (Doh.exchangeContext (Doh.newDoHClient (fun _ => true) "9.9.9.9" "" "")
        ⟨none, some "P"⟩ ⟨7, 3⟩ (.ok ()) (.ok ⟨0, 3⟩)).imposedTimeout =
      some Doh.defaultDNSTimeout ∧
    Doh.defaultDNSTimeout ≠ Doh.proxyTimeout := by
  refine ⟨by decide, rfl, by decide⟩

/-- C6 amended: when the caller already carries a deadline it is honored
unchanged and no budget is imposed; otherwise the client imposes the budget
fixed at construction, 10 s iff the client itself was configured with a
proxy and the 5 s DNS default otherwise, regardless of any per-query proxy
override. -/
theorem doh_timeout_from_construction (isIPAddr : String → Bool) (host port proxyCfg : String)
    (ctx : Doh.Ctx) (m : Doh.Msg) (b : Except Doh.DErr Unit)
    (reply : Except Doh.DErr Doh.Msg)
    (hw : (Doh.exchangeContext (Doh.newDoHClient isIPAddr host port proxyCfg) ctx m b
      reply).wire.isSome) :
    (ctx.deadline.isSome →
      (Doh.exchangeContext (Doh.newDoHClient isIPAddr host port proxyCfg) ctx m b
        reply).imposedTimeout = none) ∧
    (ctx.deadline = none →
      (Doh.exchangeContext (Doh.newDoHClient isIPAddr host port proxyCfg) ctx m b
          reply).imposedTimeout =
        some (if proxyCfg = "" then Doh.defaultDNSTimeout else Doh.proxyTimeout)) := by
  unfold Doh.exchangeContext Doh.newDoHClient at *
  rcases hb : (if isIPAddr host then Except.ok () else b) with e | u
  · rw [hb] at hw
    simp at hw
  · rcases hd : ctx.deadline with d | d <;>
      by_cases hp : proxyCfg = "" <;> simp [hd, hp]

/-- Witness for C6 amended: a proxy-configured client with no caller
deadline imposes the 10 s proxy budget. -/
theorem doh_timeout_from_construction_witness :
    (Doh.exchangeContext (Doh.newDoHClient (fun _ => true) "1.1.1.1" "" "P")
        ⟨none, none⟩ ⟨7, 3⟩ (.ok ()) (.ok ⟨0, 3⟩)).imposedTimeout = some 10 :=
  (doh_timeout_from_construction (fun _ => true) "1.1.1.1" "" "P" ⟨none, none⟩ ⟨7, 3⟩
    (.ok ()) (.ok ⟨0, 3⟩) (by decide)).2 rfl

/-- C10: ExchangeContext builds the wire request from a copy of the caller
message with its ID forced to 0 and the rest untouched, and on success the
returned message is the reply with its ID restored to the caller message
ID; the caller message itself is never altered. -/
theorem doh_wire_copy (dc : Doh.DohClient) (ctx : Doh.Ctx) (m : Doh.Msg)
    (b : Except Doh.DErr Unit) (reply : Except Doh.DErr Doh.Msg) :
    (∀ w, (Doh.exchangeContext dc ctx m b reply).wire = some w →
      w.id = 0 ∧ w.body = m.body) ∧
    (∀ r, (Doh.exchangeContext dc ctx m b reply).result = .ok r →
      r.id = m.id ∧ ∃ r0, reply = .ok r0 ∧ r.body = r0.body) := by
  unfold Doh.exchangeContext
  rcases hb : (if dc.resolved then Except.ok () else b) with e | u
  · simp
  · rcases hr : reply with e0 | r0
    · simp
    · simp only [Option.some.injEq, Except.ok.injEq]
      refine ⟨fun w hww => ?_, fun r hrr => ?_⟩
      · rw [← hww]
        exact ⟨rfl, rfl⟩
      · rw [← hrr]
        exact ⟨rfl, r0, rfl, rfl⟩

/-- Witness for C10 at a concrete exchange. -/
theorem doh_wire_copy_witness :
    (42 : Nat) = 42 ∧ ∃ r0, (Except.ok ⟨0, 9⟩ : Except Doh.DErr Doh.Msg) = .ok r0 ∧
      (9 : Nat) = r0.body :=
  (doh_wire_copy ⟨"1.1.1.1:443", "", true, 5⟩ ⟨none, none⟩ ⟨42, 9⟩ (.ok ())
    (.ok ⟨0, 9⟩)).2 ⟨42, 9⟩ rfl

namespace Resolver

/-- The parse-or-OS tail of the lookup never returns an empty list with a
nil error: the parse branch yields a singleton and the OS branch rejects an
empty answer with ErrIPNotFound. -/
theorem lookupFinal_nonempty (env : Env) (t : QType) (host : String) (l : List Nat)
    (hok : lookupFinal env t host = .ok l) : l ≠ [] := by
  unfold lookupFinal at hok
  rcases hp : env.parseAddr host with - | ip0 <;> simp only [hp] at hok
  · rcases ho : env.osLookup (if t = .qa then "ip4" else if t = .qaaaa then "ip6" else "ip")
        host with e | ips <;> simp only [ho] at hok
    · exact Except.noConfusion hok
    · by_cases hlen : ips.length = 0
      · rw [if_pos hlen] at hok
        exact Except.noConfusion hok
      · rw [if_neg hlen] at hok
        simp only [Except.ok.injEq] at hok
        rw [← hok]
        simp only [ne_eq, List.map_eq_nil_iff]
        intro hnil
        rw [hnil] at hlen
        simp at hlen
  · cases t with
    | qnone => simp at hok; simp [← hok]
    | qa =>
      by_cases his : env.is4 (env.unmap ip0) <;> simp [his] at hok
      simp [← hok]
    | qaaaa =>
      by_cases his : env.is4 ip0 <;> simp [his] at hok
      simp [← hok]

/-- The fallthrough never returns an empty list with a nil error, given the
contract on the resolver, on the recursive occurrence, and the tail
lemma. -/
theorem lookupRestB_nonempty (env : Env) (recurse : Unit → Except RErr (List Nat))
    (r : Option ResolverM) (t : QType) (both : Bool) (host : String) (l : List Nat)
    (hrec : ∀ l2, recurse () = .ok l2 → l2 ≠ [])
    (hr : ∀ rm, r = some rm → GoodResolver rm)
    (hok : lookupRestB env recurse r t both host = .ok l) : l ≠ [] := by
  rcases r with - | rm
  · simp only [lookupRestB] at hok
    split at hok
    · exact hrec l hok
    · exact lookupFinal_nonempty env t host l hok
  · have hgood := hr rm rfl
    simp only [lookupRestB] at hok
    split at hok
    · exact hgood.2.1 host l hok
    · split at hok
      · exact hgood.2.2 host l hok
      · split at hok
        · exact hgood.2.1 host l hok
        · exact hgood.1 host l hok

/-- The whole body never returns an empty list with a nil error. -/
theorem lookupBody_nonempty (env : Env) (recurse : Unit → Except RErr (List Nat))
    (r : Option ResolverM) (t : QType) (both : Bool) (host : String) (l : List Nat)
    (hrec : ∀ l2, recurse () = .ok l2 → l2 ≠ [])
    (hr : ∀ rm, r = some rm → GoodResolver rm)
    (hok : lookupBody env recurse r t both host = .ok l) : l ≠ [] := by
  unfold lookupBody at hok
  split at hok
  · exact Except.noConfusion hok
  · rcases hh : env.hosts host with - | ip0 <;> simp only [hh] at hok
    · exact lookupRestB_nonempty env recurse r t both host l hrec hr hok
    · cases t with
      | qnone =>
        simp at hok
        simp [← hok]
      | qa =>
        by_cases his : env.is4 (env.unmap ip0)
        · simp [his] at hok
          simp [← hok]
        · simp [his] at hok
          exact lookupRestB_nonempty env recurse r .qa both host l hrec hr hok
      | qaaaa =>
        by_cases his : env.is6 ip0
        · simp [his] at hok
          simp [← hok]
        · simp [his] at hok
          exact lookupRestB_nonempty env recurse r .qaaaa both host l hrec hr hok

/-- Any lookup through lookupIPByResolverAndType that returns without error
returns a non-empty list, provided every configured resolver obeys the
spec-level contract that a nil-error lookup is non-empty. -/
theorem lookupIPByResolverAndType_nonempty (env : Env)
    (hdr : ∀ rm, env.dr = some rm → GoodResolver rm) (r : Option ResolverM) (t : QType)
    (both : Bool) (host : String) (l : List Nat)
    (hr : ∀ rm, r = some rm → GoodResolver rm)
    (hok : lookupIPByResolverAndType env r t both host = .ok l) : l ≠ [] := by
  unfold lookupIPByResolverAndType at hok
  refine lookupBody_nonempty env _ r t both host l ?_ hr hok
  intro l2 h2
  refine lookupBody_nonempty env _ env.dr .qa false host l2 ?_ hdr h2
  intro l3 h3
  exact Except.noConfusion h3

end Resolver

/-- C9: under the spec-level resolver contract (a nil-error lookup is
non-empty), resolveIPByType and resolveProxyServerHostByType never reach
the empty-slice panic of ips[rand.IntN(len(ips))], and every address they
return is an element of the non-empty list produced by the underlying
lookup. -/
theorem resolve_index_safe (env : Resolver.Env)
    (hdr : ∀ rm, env.dr = some rm → Resolver.GoodResolver rm)
    (randVal : Nat) (host : String) (t : Resolver.QType) (needV6 : Bool) :
    (Resolver.resolveIPByType env randVal host t ≠ .panicEmptyList ∧
      ∀ a, Resolver.resolveIPByType env randVal host t = .ok a →
        ∃ l, Resolver.lookupIPByResolverAndType env env.dr t false host = .ok l ∧
          l ≠ [] ∧ a ∈ l) ∧
    (Resolver.resolveProxyServerHostByType env needV6 randVal host t ≠ .panicEmptyList ∧
      ∀ a, Resolver.resolveProxyServerHostByType env needV6 randVal host t = .ok a →
        ∃ l, Resolver.lookupIPByResolverAndType env env.dr t needV6 host = .ok l ∧
          l ≠ [] ∧ a ∈ l) := by
  have hdisp : (match t with
      | .qnone => Resolver.lookupIPByResolverAndType env env.dr .qnone false host
      | .qa => Resolver.lookupIPByResolverAndType env env.dr .qa false host
      | .qaaaa => Resolver.lookupIPByResolverAndType env env.dr .qaaaa false host) =
      Resolver.lookupIPByResolverAndType env env.dr t false host := by
    cases t <;> rfl
  constructor
  · unfold Resolver.resolveIPByType
    rw [hdisp]
    cases hres : Resolver.lookupIPByResolverAndType env env.dr t false host with
    | error e => exact ⟨by simp, by simp⟩
    | ok ips =>
      have hne : ips ≠ [] :=
        Resolver.lookupIPByResolverAndType_nonempty env hdr env.dr t false host ips hdr hres
      have hlen : 0 < ips.length := List.length_pos.mpr hne
      refine ⟨by simp [hlen], ?_⟩
      intro a ha
      simp only [hlen, dif_pos] at ha
      simp only [Resolver.ResolveOut.ok.injEq] at ha
      exact ⟨ips, rfl, hne, ha ▸ ips.get_mem _ _⟩
  · unfold Resolver.resolveProxyServerHostByType
    cases hres : Resolver.lookupIPByResolverAndType env env.dr t needV6 host with
    | error e => exact ⟨by simp, by simp⟩
    | ok ips =>
      have hne : ips ≠ [] :=
        Resolver.lookupIPByResolverAndType_nonempty env hdr env.dr t needV6 host ips hdr hres
      have hlen : 0 < ips.length := List.length_pos.mpr hne
      refine ⟨by simp [hlen], ?_⟩
      intro a ha
      simp only [hlen, dif_pos] at ha
      simp only [Resolver.ResolveOut.ok.injEq] at ha
      exact ⟨ips, rfl, hne, ha ▸ ips.get_mem _ _⟩

/-- Witness for C9 at a concrete environment whose single upstream answers
with one address. -/
theorem resolve_index_safe_witness :
    Resolver.resolveIPByType
        ⟨id, fun _ => true, fun _ => false, fun _ => none, fun _ => none,
          fun _ _ => .error .upstreamErr, true,
          some ⟨fun _ => .ok [3], fun _ => .ok [3], fun _ => .ok [3]⟩⟩ 0 "h" .qa ≠
      .panicEmptyList :=
  (resolve_index_safe
    ⟨id, fun _ => true, fun _ => false, fun _ => none, fun _ => none,
      fun _ _ => .error .upstreamErr, true,
      some ⟨fun _ => .ok [3], fun _ => .ok [3], fun _ => .ok [3]⟩⟩
    (fun rm hrm => by
      cases hrm
      refine ⟨fun h l hl => ?_, fun h l hl => ?_, fun h l hl => ?_⟩ <;>
        · simp only [Except.ok.injEq] at hl
          rw [← hl]
          simp)
    0 "h" .qa false).1.1



namespace Config

/-- Lookup after a map assignment: the newest binding wins. -/
theorem pfind_pinsert (m : PMap) (k k2 : String) (p : Proxy) :
    pfind (pinsert m k p) k2 = if k2 = k then some p else pfind m k2 := by
  by_cases h : k2 = k
  · subst h
    simp [pfind, pinsert, List.find?]
  · have h2 : ¬k = k2 := fun hh => h hh.symm
    simp [pfind, pinsert, List.find?, h2, h]

/-- Lookup in the seed map holding the two built-ins. -/
theorem pfind_seed (k : String) :
    pfind (pinsert (pinsert [] "DIRECT" directProxy) "REJECT" rejectProxy) k =
      if k = "REJECT" then some rejectProxy
      else if k = "DIRECT" then some directProxy else none := by
  rw [pfind_pinsert, pfind_pinsert]
  by_cases h1 : k = "REJECT" <;> by_cases h2 : k = "DIRECT" <;>
    simp [h1, h2, pfind]

/-- What a successful leaf loop guarantees: proxyList grows by exactly the
parsed leaf names, those names are mutually distinct and fresh, lookups of
other keys are untouched, and every new name is bound to a proxy carrying
it. -/
theorem parseLeafLoop_spec :
    ∀ (rs : List (Except String Proxy)) (m : PMap) (pl : List String) (m2 : PMap)
      (pl2 : List String), parseLeafLoop rs m pl = .ok (m2, pl2) →
      pl2 = pl ++ leafNamesOf rs ∧
      (leafNamesOf rs).Nodup ∧
      (∀ k, k ∈ leafNamesOf rs → pfind m k = none) ∧
      (∀ k, k ∉ leafNamesOf rs → pfind m2 k = pfind m k) ∧
      (∀ k p, pfind m2 k = some p → pfind m k = some p ∨ (k ∈ leafNamesOf rs ∧ p.name = k)) ∧
      (∀ k, k ∈ leafNamesOf rs → ∃ p, pfind m2 k = some p ∧ p.name = k) := by
  intro rs
  induction rs with
  | nil =>
    intro m pl m2 pl2 hok
    simp only [parseLeafLoop, Except.ok.injEq, Prod.mk.injEq] at hok
    obtain ⟨rfl, rfl⟩ := hok
    simp [leafNamesOf]
  | cons r rest ih =>
    intro m pl m2 pl2 hok
    match r with
    | .error e => simp [parseLeafLoop] at hok
    | .ok p =>
      simp only [parseLeafLoop] at hok
      by_cases hdup : (pfind m p.name).isSome
      · rw [if_pos hdup] at hok
        exact absurd hok (by simp)
      · rw [if_neg hdup] at hok
        have hnone : pfind m p.name = none := Option.not_isSome_iff_eq_none.mp hdup
        obtain ⟨hpl, hnod, hfresh, hframe, hvals, hex⟩ := ih _ _ _ _ hok
        have hnames : leafNamesOf (.ok p :: rest) = p.name :: leafNamesOf rest := by
          simp [leafNamesOf]
        have hnotmem : p.name ∉ leafNamesOf rest := by
          intro hmem
          have := hfresh p.name hmem
          rw [pfind_pinsert, if_pos rfl] at this
          exact Option.noConfusion this
        refine ⟨?_, ?_, ?_, ?_, ?_, ?_⟩
        · rw [hnames, hpl]
          simp
        · rw [hnames]
          exact List.nodup_cons.mpr ⟨hnotmem, hnod⟩
        · intro k hk
          rw [hnames, List.mem_cons] at hk
          rcases hk with rfl | hk
          · exact hnone
          · have := hfresh k hk
            rw [pfind_pinsert] at this
            by_cases hkp : k = p.name
            · rw [if_pos hkp] at this
              exact Option.noConfusion this
            · rwa [if_neg hkp] at this
        · intro k hk
          rw [hnames, List.mem_cons] at hk
          push_neg at hk
          rw [hframe k hk.2, pfind_pinsert, if_neg hk.1]
        · intro k q hq
          rcases hvals k q hq with hq1 | hq2
          · rw [pfind_pinsert] at hq1
            by_cases hkp : k = p.name
            · rw [if_pos hkp] at hq1
              refine Or.inr ⟨?_, ?_⟩
              · rw [hnames, hkp]
                exact List.mem_cons_self _ _
              · obtain rfl : p = q := Option.some.injEq .. ▸ hq1
                exact hkp.symm
            · rw [if_neg hkp] at hq1
              exact Or.inl hq1
          · exact Or.inr ⟨by rw [hnames]; exact List.mem_cons_of_mem _ hq2.1, hq2.2⟩
        · intro k hk
          rw [hnames, List.mem_cons] at hk
          rcases hk with rfl | hk
          · refine ⟨p, ?_, rfl⟩
            rw [hframe _ hnotmem, pfind_pinsert, if_pos rfl]
          · exact hex k hk

/-- The names the group loop registers: one per successfully parsed
group. -/
def groupLoopNames (parseGroup : GroupMapping → Except String Proxy)
    (gs : List GroupMapping) : List String :=
  gs.filterMap (fun g => ((parseGroup g).toOption).map (·.name))

/-- What a successful group loop guarantees, mirroring the leaf loop: the
parsed group names are distinct and fresh, other keys are untouched, every
new name is bound to a proxy carrying it, and every group parsed. -/
theorem parseGroupLoop_spec (parseGroup : GroupMapping → Except String Proxy) :
    ∀ (gs : List GroupMapping) (m : PMap) (m2 : PMap),
      parseGroupLoop parseGroup gs m = .ok m2 →
      (groupLoopNames parseGroup gs).Nodup ∧
      (∀ k, k ∈ groupLoopNames parseGroup gs → pfind m k = none) ∧
      (∀ k, k ∉ groupLoopNames parseGroup gs → pfind m2 k = pfind m k) ∧
      (∀ k p, pfind m2 k = some p →
        pfind m k = some p ∨ (k ∈ groupLoopNames parseGroup gs ∧ p.name = k)) ∧
      (∀ k, k ∈ groupLoopNames parseGroup gs → ∃ p, pfind m2 k = some p ∧ p.name = k) ∧
      (∀ g, g ∈ gs → ∃ p, parseGroup g = .ok p) := by
  intro gs
  induction gs with
  | nil =>
    intro m m2 hok
    simp only [parseGroupLoop, Except.ok.injEq] at hok
    subst hok
    simp [groupLoopNames]
  | cons g rest ih =>
    intro m m2 hok
    simp only [parseGroupLoop] at hok
    cases hpg : parseGroup g with
    | error e =>
      rw [hpg] at hok
      exact absurd hok (by simp)
    | ok p =>
      simp only [hpg] at hok
      by_cases hdup : (pfind m p.name).isSome
      · rw [if_pos hdup] at hok
        exact absurd hok (by simp)
      · rw [if_neg hdup] at hok
        have hnone : pfind m p.name = none := Option.not_isSome_iff_eq_none.mp hdup
        obtain ⟨hnod, hfresh, hframe, hvals, hex, hall⟩ := ih _ _ hok
        have hnames : groupLoopNames parseGroup (g :: rest) =
            p.name :: groupLoopNames parseGroup rest := by
          simp [groupLoopNames, List.filterMap_cons, hpg, Except.toOption]
        have hnotmem : p.name ∉ groupLoopNames parseGroup rest := by
          intro hmem
          have := hfresh p.name hmem
          rw [pfind_pinsert, if_pos rfl] at this
          exact Option.noConfusion this
        refine ⟨?_, ?_, ?_, ?_, ?_, ?_⟩
        · rw [hnames]
          exact List.nodup_cons.mpr ⟨hnotmem, hnod⟩
        · intro k hk
          rw [hnames, List.mem_cons] at hk
          rcases hk with rfl | hk
          · exact hnone
          · have := hfresh k hk
            rw [pfind_pinsert] at this
            by_cases hkp : k = p.name
            · rw [if_pos hkp] at this
              exact Option.noConfusion this
            · rwa [if_neg hkp] at this
        · intro k hk
          rw [hnames, List.mem_cons] at hk
          push_neg at hk
          rw [hframe k hk.2, pfind_pinsert, if_neg hk.1]
        · intro k q hq
          rcases hvals k q hq with hq1 | hq2
          · rw [pfind_pinsert] at hq1
            by_cases hkp : k = p.name
            · rw [if_pos hkp] at hq1
              refine Or.inr ⟨?_, ?_⟩
              · rw [hnames, hkp]
                exact List.mem_cons_self _ _
              · obtain rfl : p = q := Option.some.injEq .. ▸ hq1
                exact hkp.symm
            · rw [if_neg hkp] at hq1
              exact Or.inl hq1
          · exact Or.inr ⟨by rw [hnames]; exact List.mem_cons_of_mem _ hq2.1, hq2.2⟩
        · intro k hk
          rw [hnames, List.mem_cons] at hk
          rcases hk with rfl | hk
          · refine ⟨p, ?_, rfl⟩
            rw [hframe _ hnotmem, pfind_pinsert, if_pos rfl]
          · exact hex k hk
        · intro g2 hg2
          rw [List.mem_cons] at hg2
          rcases hg2 with rfl | hg2
          · exact ⟨p, hpg⟩
          · exact hall g2 hg2

/-- A successful name collection returns exactly the mapping names, all
present. -/
theorem collectGroupNames_spec :
    ∀ (gs : List GroupMapping) (ns : List String), collectGroupNames gs = .ok ns →
      ns = gs.map (fun g => g.gname.getD "") ∧ ∀ g, g ∈ gs → g.gname.isSome := by
  intro gs
  induction gs with
  | nil =>
    intro ns hok
    simp only [collectGroupNames, Except.ok.injEq] at hok
    subst hok
    simp
  | cons g rest ih =>
    intro ns hok
    simp only [collectGroupNames] at hok
    cases hg : g.gname with
    | none => rw [hg] at hok; exact absurd hok (by simp)
    | some n =>
      rw [hg] at hok
      cases hrec : collectGroupNames rest with
      | error e => rw [hrec] at hok; exact absurd hok (by simp)
      | ok ns0 =>
        rw [hrec] at hok
        simp only [Except.ok.injEq] at hok
        subst hok
        obtain ⟨hmap, hsome⟩ := ih ns0 hrec
        refine ⟨?_, ?_⟩
        · rw [hmap]
          simp [hg]
        · intro g2 hg2
          rw [List.mem_cons] at hg2
          rcases hg2 with rfl | hg2
          · simp [hg]
          · exact hsome g2 hg2

/-- When every group parses and each parsed name agrees with the mapping
name, the loop names are the mapping names. -/
theorem groupLoopNames_eq_map (parseGroup : GroupMapping → Except String Proxy)
    (hname : ∀ g p, parseGroup g = .ok p → g.gname = some p.name) :
    ∀ (gs : List GroupMapping), (∀ g, g ∈ gs → ∃ p, parseGroup g = .ok p) →
      groupLoopNames parseGroup gs = gs.map (fun g => g.gname.getD "") := by
  intro gs
  induction gs with
  | nil => intro _; simp [groupLoopNames]
  | cons g rest ih =>
    intro hall
    obtain ⟨p, hp⟩ := hall g (List.mem_cons_self _ _)
    have hmapname : g.gname.getD "" = p.name := by
      rw [hname g p hp]
      rfl
    have hhead : (fun g2 => ((parseGroup g2).toOption).map (·.name)) g = some p.name := by
      show ((parseGroup g).toOption).map (·.name) = some p.name
      rw [hp]
      rfl
    simp only [groupLoopNames, List.filterMap_cons, hhead, List.map_cons, hmapname]
    exact congrArg (p.name :: ·) (ih (fun g2 hg2 => hall g2 (List.mem_cons_of_mem _ hg2)))

end Config

/-- C2 counterexample: on the empty configuration parseProxies succeeds,
the GLOBAL selector is a known proxy, yet the provider backing GLOBAL holds
only DIRECT and REJECT; so the provider does not contain every known proxy
as claimed (it misses GLOBAL itself). -/
theorem parseProxies_global_counterexample :
    Config.parseProxies [] [] (fun l => .ok l) (.ok ()) (fun _ => .error "") (.ok ()) =
      .ok ⟨[("GLOBAL", Config.globalProxy), ("REJECT", Config.rejectProxy),
          ("DIRECT", Config.directProxy)],
        [some Config.directProxy, some Config.rejectProxy]⟩ ∧
    Config.pfind [("GLOBAL", Config.globalProxy), ("REJECT", Config.rejectProxy),
        ("DIRECT", Config.directProxy)] "GLOBAL" = some Config.globalProxy ∧
    some Config.globalProxy ∉ [some Config.directProxy, some Config.rejectProxy] := by
  refine ⟨rfl, by decide, by decide⟩

/-- C2 amended: when parseProxies succeeds, the two built-in names and all
declared leaf and group names are pairwise distinct (a duplicate fails the
parse), DIRECT and REJECT are bound to the built-in adapters, and a GLOBAL
selector exists whose backing provider contains every known proxy other
than the GLOBAL selector itself.  The hypotheses state what the external
collaborators guarantee: the DAG sort permutes the groups and a parsed
group carries its mapping name. -/
theorem parseProxies_invariants
    (parseLeafRes : List (Except String Config.Proxy))
    (groupsCfg : List Config.GroupMapping)
    (dagSort : List Config.GroupMapping → Except String (List Config.GroupMapping))
    (providersStep : Except String Unit)
    (parseGroup : Config.GroupMapping → Except String Config.Proxy)
    (compatStep : Except String Unit) (res : Config.ParsedProxies)
    (hok : Config.parseProxies parseLeafRes groupsCfg dagSort providersStep parseGroup
      compatStep = .ok res)
    (hperm : ∀ l, dagSort groupsCfg = .ok l → l.Perm groupsCfg)
    (hname : ∀ g p, parseGroup g = .ok p → g.gname = some p.name) :
    ("DIRECT" :: "REJECT" ::
        (Config.leafNamesOf parseLeafRes ++
          groupsCfg.map (fun g => g.gname.getD ""))).Nodup ∧
    Config.pfind res.proxies "DIRECT" = some Config.directProxy ∧
    Config.pfind res.proxies "REJECT" = some Config.rejectProxy ∧
    Config.pfind res.proxies "GLOBAL" = some Config.globalProxy ∧
    (∀ k p, Config.pfind res.proxies k = some p → k ≠ "GLOBAL" →
      some p ∈ res.globalProvider) := by
  unfold Config.parseProxies at hok
  cases h1 : Config.parseLeafLoop parseLeafRes
      (Config.pinsert (Config.pinsert [] "DIRECT" Config.directProxy) "REJECT"
        Config.rejectProxy) ["DIRECT", "REJECT"] with
  | error e =>
    simp only [h1] at hok
    exact Except.noConfusion hok
  | ok pr1 =>
    obtain ⟨m1, pl1⟩ := pr1
    simp only [h1] at hok
    cases h2 : Config.collectGroupNames groupsCfg with
    | error e =>
      simp only [h2] at hok
      exact Except.noConfusion hok
    | ok gnames =>
      simp only [h2] at hok
      cases h3 : dagSort groupsCfg with
      | error e =>
        simp only [h3] at hok
        exact Except.noConfusion hok
      | ok sorted =>
        simp only [h3] at hok
        rcases providersStep with e4 | u4
        · simp only [] at hok
          exact Except.noConfusion hok
        · simp only [] at hok
          cases h5 : Config.parseGroupLoop parseGroup sorted m1 with
          | error e =>
            simp only [h5] at hok
            exact Except.noConfusion hok
          | ok m2 =>
            simp only [h5] at hok
            rcases compatStep with e6 | u6
            · simp only [] at hok
              exact Except.noConfusion hok
            · simp only [Except.ok.injEq] at hok
              subst hok
              obtain ⟨hpl1, hLnod, hLfresh, hLframe, hLvals, hLex⟩ :=
                Config.parseLeafLoop_spec _ _ _ _ _ h1
              obtain ⟨hCmap, -⟩ := Config.collectGroupNames_spec _ _ h2
              obtain ⟨hGnod, hGfresh, hGframe, hGvals, hGex, hGall⟩ :=
                Config.parseGroupLoop_spec parseGroup _ _ _ h5
              have hGn := Config.groupLoopNames_eq_map parseGroup hname sorted hGall
              have hpermMap := (hperm sorted h3).map (fun g => g.gname.getD "")
              have hgmem : ∀ k, k ∈ groupsCfg.map (fun g => g.gname.getD "") ↔
                  k ∈ Config.groupLoopNames parseGroup sorted := by
                intro k
                rw [hGn]
                exact hpermMap.mem_iff.symm
              have hDleaf : "DIRECT" ∉ Config.leafNamesOf parseLeafRes := by
                intro hmem
                have := hLfresh _ hmem
                rw [Config.pfind_seed] at this
                simp at this
              have hRleaf : "REJECT" ∉ Config.leafNamesOf parseLeafRes := by
                intro hmem
                have := hLfresh _ hmem
                rw [Config.pfind_seed] at this
                simp at this
              have hD1 : Config.pfind m1 "DIRECT" = some Config.directProxy := by
                rw [hLframe _ hDleaf, Config.pfind_seed]
                simp
              have hR1 : Config.pfind m1 "REJECT" = some Config.rejectProxy := by
                rw [hLframe _ hRleaf, Config.pfind_seed]
                simp
              have hDgrp : "DIRECT" ∉ Config.groupLoopNames parseGroup sorted := by
                intro hmem
                have := hGfresh _ hmem
                rw [hD1] at this
                exact Option.noConfusion this
              have hRgrp : "REJECT" ∉ Config.groupLoopNames parseGroup sorted := by
                intro hmem
                have := hGfresh _ hmem
                rw [hR1] at this
                exact Option.noConfusion this
              have hLeafGrp : ∀ k, k ∈ Config.leafNamesOf parseLeafRes →
                  k ∉ Config.groupLoopNames parseGroup sorted := by
                intro k hkL hkG
                obtain ⟨p, hp, -⟩ := hLex k hkL
                have := hGfresh _ hkG
                rw [hp] at this
                exact Option.noConfusion this
              have hD2 : Config.pfind m2 "DIRECT" = some Config.directProxy := by
                rw [hGframe _ hDgrp]
                exact hD1
              have hR2 : Config.pfind m2 "REJECT" = some Config.rejectProxy := by
                rw [hGframe _ hRgrp]
                exact hR1
              refine ⟨?_, ?_, ?_, ?_, ?_⟩
              · refine List.nodup_cons.mpr ⟨?_, List.nodup_cons.mpr ⟨?_, ?_⟩⟩
                · simp only [List.mem_cons, List.mem_append]
                  push_neg
                  refine ⟨by decide, hDleaf, ?_⟩
                  intro hmem
                  exact hDgrp ((hgmem "DIRECT").mp hmem)
                · simp only [List.mem_append]
                  push_neg
                  refine ⟨hRleaf, ?_⟩
                  intro hmem
                  exact hRgrp ((hgmem "REJECT").mp hmem)
                · refine List.Nodup.append hLnod ?_ ?_
                  · rw [← hGn] at hpermMap
                    exact (hpermMap.nodup_iff).mp hGnod
                  · intro k hkL hkG
                    exact hLeafGrp k hkL ((hgmem k).mp hkG)
              · rw [Config.pfind_pinsert, if_neg (by decide)]
                exact hD2
              · rw [Config.pfind_pinsert, if_neg (by decide)]
                exact hR2
              · rw [Config.pfind_pinsert, if_pos rfl]
              · intro k p hfind hkG
                rw [Config.pfind_pinsert, if_neg hkG] at hfind
                have hkpl : k ∈ pl1 ++ gnames := by
                  rcases hGvals k p hfind with h | ⟨hmem, -⟩
                  · rcases hLvals k p h with h0 | ⟨hmemL, -⟩
                    · rw [Config.pfind_seed] at h0
                      rw [List.mem_append, hpl1]
                      by_cases hkR : k = "REJECT"
                      · subst hkR
                        simp
                      · rw [if_neg hkR] at h0
                        by_cases hkD : k = "DIRECT"
                        · subst hkD
                          simp
                        · rw [if_neg hkD] at h0
                          exact absurd h0 (by simp)
                    · rw [List.mem_append, hpl1]
                      left
                      simp only [List.mem_append]
                      right
                      exact hmemL
                  · rw [List.mem_append, hCmap]
                    right
                    exact (hgmem k).mpr hmem
                have : Config.pfind m2 k ∈
                    (pl1 ++ gnames).map (fun v => Config.pfind m2 v) :=
                  List.mem_map_of_mem _ hkpl
                rw [hfind] at this
                exact this

/-- Witness for C2 amended: a configuration with one leaf and one group
satisfies the hypotheses, and the DIRECT binding is recovered from the
theorem. -/
theorem parseProxies_invariants_witness :
    Config.pfind
      [("GLOBAL", Config.globalProxy), ("g1", ⟨"g1", Config.AdapterKind.group 0⟩),
        ("p1", ⟨"p1", Config.AdapterKind.leaf 0⟩), ("REJECT", Config.rejectProxy),
        ("DIRECT", Config.directProxy)] "DIRECT" = some Config.directProxy :=
  (parseProxies_invariants [Except.ok ⟨"p1", Config.AdapterKind.leaf 0⟩] [⟨some "g1", 0⟩]
    (fun l => .ok l) (.ok ())
    (fun g => match g.gname with
      | some n => .ok ⟨n, Config.AdapterKind.group g.body⟩
      | none => .error "missing name")
    (.ok ())
    ⟨[("GLOBAL", Config.globalProxy), ("g1", ⟨"g1", Config.AdapterKind.group 0⟩),
        ("p1", ⟨"p1", Config.AdapterKind.leaf 0⟩), ("REJECT", Config.rejectProxy),
        ("DIRECT", Config.directProxy)],
      [some Config.directProxy, some Config.rejectProxy,
        some ⟨"p1", Config.AdapterKind.leaf 0⟩, some ⟨"g1", Config.AdapterKind.group 0⟩]⟩
    rfl
    (fun l hl => by
      simp only [Except.ok.injEq] at hl
      rw [← hl])
    (fun g p hp => by
      cases hg : g.gname with
      | none =>
        simp only [hg] at hp
        exact Except.noConfusion hp
      | some n =>
        simp only [hg, Except.ok.injEq] at hp
        rw [← hp])).2.1

namespace Rules

/-- Lookup after a ruleProviders assignment. -/
theorem rfind_cons (m : RPMap) (k0 k : String) (r : RRule) :
    rfind ((k0, r) :: m) k = if k = k0 then some r else rfind m k := by
  by_cases h : k = k0
  · subst h
    simp [rfind, List.find?]
  · have h2 : ¬k0 = k := fun hh => h hh.symm
    simp [rfind, List.find?, h, h2]

/-- The if-expression registration loop never removes a registration. -/
theorem registerFromIf_mono (env : REnv) :
    ∀ (names : List String) (rps : RPMap) (k : String),
      (rfind rps k).isSome = true → (rfind (registerFromIf env names rps) k).isSome = true := by
  intro names
  induction names with
  | nil =>
    intro rps k hk
    simpa [registerFromIf] using hk
  | cons w rest ih =>
    intro rps k hk
    simp only [registerFromIf]
    apply ih
    by_cases hfound : (rfind rps (Rules.toLowerS w)).isSome
    · rw [if_pos hfound]
      exact hk
    · rw [if_neg hfound]
      cases hg : env.newGEOSITE (Rules.toLowerS w) scriptRuleGeoSiteTarget with
      | error e =>
        simp only [hg]
        exact hk
      | ok rpd =>
        simp only [hg]
        rw [rfind_cons]
        by_cases hkw : k = (Rules.toLowerS w)
        · rw [if_pos hkw]
          rfl
        · rw [if_neg hkw]
          exact hk

/-- Every name fed to the if-expression registration loop ends up
registered under its lowercased form, unless NewGEOSITE failed for it (in
which case the failure is silently swallowed). -/
theorem registerFromIf_covers (env : REnv) :
    ∀ (names : List String) (rps : RPMap) (v : String), v ∈ names →
      (rfind (registerFromIf env names rps) (Rules.toLowerS v)).isSome = true ∨
        ∃ e, env.newGEOSITE (Rules.toLowerS v) scriptRuleGeoSiteTarget = .error e := by
  intro names
  induction names with
  | nil =>
    intro rps v hv
    simp at hv
  | cons w rest ih =>
    intro rps v hv
    rcases List.mem_cons.mp hv with rfl | hv2
    · simp only [registerFromIf]
      by_cases hfound : (rfind rps (Rules.toLowerS v)).isSome
      · rw [if_pos hfound]
        exact Or.inl (registerFromIf_mono env rest _ _ hfound)
      · rw [if_neg hfound]
        cases hg : env.newGEOSITE (Rules.toLowerS v) scriptRuleGeoSiteTarget with
        | error e => exact Or.inr ⟨e, hg ▸ rfl⟩
        | ok rpd =>
          simp only [hg]
          refine Or.inl (registerFromIf_mono env rest _ _ ?_)
          rw [rfind_cons, if_pos rfl]
          rfl
    · simp only [registerFromIf]
      exact ih _ v hv2

end Rules

namespace Rules

/-- dropWhile is the identity when no element satisfies the predicate. -/
theorem dropWhile_eq_self_of_all (p : Char → Bool) (l : List Char)
    (h : ∀ c ∈ l, p c = false) : l.dropWhile p = l := by
  cases l with
  | nil => rfl
  | cons c t => simp [List.dropWhile_cons, h c (List.mem_cons_self c t)]

/-- trimChars is the identity on whitespace-free character lists. -/
theorem trimChars_eq_self (l : List Char) (h : ∀ c ∈ l, c.isWhitespace = false) :
    trimChars l = l := by
  unfold trimChars
  rw [dropWhile_eq_self_of_all _ _ h,
    dropWhile_eq_self_of_all _ _ (fun c hc => h c (List.mem_reverse.mp hc)),
    List.reverse_reverse]

/-- splitComma of a comma-free character list is that single field. -/
theorem splitComma_nocomma (l : List Char) (h : ∀ c ∈ l, ¬c = ',') :
    splitComma l = [l] := by
  induction l with
  | nil => rfl
  | cons c t ih =>
    unfold splitComma
    rw [if_neg (h c (List.mem_cons_self c t)),
      ih (fun d hd => h d (List.mem_cons_of_mem c hd))]

/-- splitComma splits at the first comma after a comma-free field. -/
theorem splitComma_sep (l rest : List Char) (h : ∀ c ∈ l, ¬c = ',') :
    splitComma (l ++ ',' :: rest) = l :: splitComma rest := by
  induction l with
  | nil => simp [splitComma]
  | cons c t ih =>
    rw [List.cons_append]
    simp only [splitComma]
    rw [if_neg (h c (List.mem_cons_self c t)),
      ih (fun d hd => h d (List.mem_cons_of_mem c hd))]

/-- plainName unpacked: every character is neither a comma nor whitespace. -/
theorem plainName_spec (v : String) (hv : plainName v = true) :
    ∀ c ∈ v.data, ¬c = ',' ∧ c.isWhitespace = false := by
  intro c hc
  simp only [plainName, List.all_eq_true, Bool.and_eq_true, bne_iff_ne, ne_eq,
    Bool.not_eq_true'] at hv
  exact hv c hc

/-- The comma re-split plus per-field trim of an auto-emitted sentinel line
recovers exactly the three fields when the referenced name carries neither
a comma nor whitespace. -/
theorem splitTrim_sentinel (v : String) (hv : plainName v = true) :
    splitTrim ("GEOSITE," ++ v ++ "," ++ scriptRuleGeoSiteTarget) =
      ["GEOSITE", v, scriptRuleGeoSiteTarget] := by
  have hnc : ∀ c ∈ v.data, ¬c = ',' := fun c hc => (plainName_spec v hv c hc).1
  have hnw : ∀ c ∈ v.data, c.isWhitespace = false := fun c hc => (plainName_spec v hv c hc).2
  have hdata : ("GEOSITE," ++ v ++ "," ++ scriptRuleGeoSiteTarget).data =
      "GEOSITE".data ++ ',' :: (v.data ++ ',' :: scriptRuleGeoSiteTarget.data) := by
    have h1 : "GEOSITE,".data = "GEOSITE".data ++ [','] := rfl
    have h2 : ",".data = [','] := rfl
    simp only [String.data_append, h1, h2, List.append_assoc, List.cons_append,
      List.singleton_append, List.nil_append]
  unfold splitTrim
  rw [hdata, splitComma_sep _ _ (by decide), splitComma_sep _ _ hnc,
    splitComma_nocomma _ (by decide)]
  simp only [List.map_cons, List.map_nil]
  rw [trimChars_eq_self _ hnw]
  rfl

/-- Throughout parseRawRules registrations only accumulate; every top-level
auto-emitted GEOSITE sentinel line whose referenced name survives the comma
re-split intact (no comma, no whitespace) leaves its lowercased payload
registered; and every provider name referenced from any group rule's if
expression at any depth is registered unless its NewGEOSITE silently
failed. -/
theorem parseRawRules_registers (env : REnv) (proxies : List String) :
    ∀ (fuel : Nat) (rrs : List RawRule) (rps : RPMap) (ms : MMap)
      (out : List RRule × RPMap × MMap),
        parseRawRules env proxies fuel rrs rps ms = .ok out →
        ((∀ k, (rfind rps k).isSome = true → (rfind out.2.1 k).isSome = true) ∧
         (∀ v, plainName v = true →
           RawRule.line ("GEOSITE," ++ v ++ "," ++ scriptRuleGeoSiteTarget) ∈ rrs →
           (rfind out.2.1 (Rules.toLowerS v)).isSome = true) ∧
         (∀ v, v ∈ collectIfNames env rrs →
           (rfind out.2.1 (Rules.toLowerS v)).isSome = true ∨
             ∃ e, env.newGEOSITE (Rules.toLowerS v) scriptRuleGeoSiteTarget = .error e)) := by
  intro fuel
  induction fuel with
  | zero =>
    intro rrs rps ms out hok
    simp only [parseRawRules] at hok
    exact Except.noConfusion hok
  | succ n ih =>
    intro rrs rps ms out hok
    cases rrs with
    | nil =>
      simp only [parseRawRules, Except.ok.injEq] at hok
      subst hok
      refine ⟨fun k hk => hk, by simp, by simp [collectIfNames]⟩
    | cons head rest =>
      cases head with
      | skip =>
        simp only [parseRawRules] at hok
        obtain ⟨r1, r2, r3⟩ := ih rest rps ms out hok
        refine ⟨r1, ?_, ?_⟩
        · intro v hpl hv
          rcases List.mem_cons.mp hv with hv | hv
          · exact absurd hv (by simp)
          · exact r2 v hpl hv
        · intro v hv
          simp only [collectIfNames] at hv
          exact r3 v hv
      | group name ifE eng subs =>
        simp only [parseRawRules] at hok
        by_cases hdup : (mfind ms ("rule:" ++ name)).isSome
        · rw [if_pos hdup] at hok
          exact absurd hok (by simp)
        · rw [if_neg hdup] at hok
          cases hm : (if eng = "expr" then env.newExprMatcherF name ifE
              else env.newMatcherF name "" ifE) with
          | error e =>
            simp only [hm] at hok
            exact absurd hok (by simp)
          | ok u =>
            simp only [hm] at hok
            cases hsub : parseRawRules env proxies n subs rps (("rule:" ++ name, ()) :: ms) with
            | error e =>
              simp only [hsub] at hok
              exact absurd hok (by simp)
            | ok o1 =>
              obtain ⟨srl, rps1, ms2⟩ := o1
              simp only [hsub] at hok
              cases hrest : parseRawRules env proxies n rest
                  (registerFromIf env (env.frpn ifE) rps1) ms2 with
              | error e =>
                simp only [hrest] at hok
                exact absurd hok (by simp)
              | ok o2 =>
                obtain ⟨rl, rps3, ms3⟩ := o2
                simp only [hrest, Except.ok.injEq] at hok
                subst hok
                obtain ⟨s1, s2, s3⟩ := ih subs _ _ _ hsub
                obtain ⟨r1, r2, r3⟩ := ih rest _ _ _ hrest
                refine ⟨?_, ?_, ?_⟩
                · intro k hk
                  exact r1 k (registerFromIf_mono env _ _ k (s1 k hk))
                · intro v hpl hv
                  rcases List.mem_cons.mp hv with hv | hv
                  · exact absurd hv (by simp)
                  · exact r2 v hpl hv
                · intro v hv
                  simp only [collectIfNames, List.mem_append] at hv
                  rcases hv with (hv | hv) | hv
                  · rcases registerFromIf_covers env _ rps1 v hv with hc | hc
                    · exact Or.inl (r1 _ hc)
                    · exact Or.inr hc
                  · rcases s3 v hv with hc | hc
                    · exact Or.inl (r1 _ (registerFromIf_mono env _ _ _ hc))
                    · exact Or.inr hc
                  · exact r3 v hv
      | line s =>
        simp only [parseRawRules] at hok
        by_cases hl2 : (splitTrim s).length < 2
        · rw [if_pos hl2] at hok
          exact absurd hok (by simp)
        · rw [if_neg hl2] at hok
          by_cases hpx : ¬proxies.contains (lineTarget (splitTrim s)) ∧
              lineRuleName (splitTrim s) ≠ "GEOSITE" ∧
              lineTarget (splitTrim s) ≠ scriptRuleGeoSiteTarget
          · rw [if_pos hpx] at hok
            exact absurd hok (by simp)
          · rw [if_neg hpx] at hok
            by_cases hskip : lineRuleName (splitTrim s) = "GEOSITE" ∧
                lineTarget (splitTrim s) = scriptRuleGeoSiteTarget ∧
                (rfind rps (toLowerS (linePayload (splitTrim s)))).isSome
            · rw [if_pos hskip] at hok
              obtain ⟨r1, r2, r3⟩ := ih rest _ _ _ hok
              refine ⟨r1, ?_, ?_⟩
              · intro v hpl hv
                rcases List.mem_cons.mp hv with hv | hv
                · have hf : "GEOSITE," ++ v ++ "," ++ scriptRuleGeoSiteTarget = s := by
                    simpa using hv
                  subst hf
                  rw [splitTrim_sentinel v hpl] at hskip
                  exact r1 _ hskip.2.2
                · exact r2 v hpl hv
              · intro v hv
                simp only [collectIfNames] at hv
                exact r3 v hv
            · rw [if_neg hskip] at hok
              cases hpr : env.parseRuleF (lineRuleName (splitTrim s)) (linePayload (splitTrim s))
                  (lineTarget (splitTrim s)) (lineParams (splitTrim s)) with
              | error e =>
                simp only [hpr] at hok
                exact absurd hok (by simp)
              | ok parsed =>
                simp only [hpr] at hok
                by_cases hscr : env.isScriptRule parsed ∧
                    (mfind ms (linePayload (splitTrim s))).isNone
                · rw [if_pos hscr] at hok
                  exact absurd hok (by simp)
                · rw [if_neg hscr] at hok
                  cases hrest : parseRawRules env proxies n rest
                      (if lineRuleName (splitTrim s) = "GEOSITE" ∧
                          ¬(rfind rps (toLowerS (linePayload (splitTrim s)))).isSome then
                        (toLowerS (linePayload (splitTrim s)), parsed) :: rps
                      else rps) ms with
                  | error e =>
                    simp only [hrest] at hok
                    exact absurd hok (by simp)
                  | ok o2 =>
                    obtain ⟨rl, rps2, ms2⟩ := o2
                    simp only [hrest, Except.ok.injEq] at hok
                    subst hok
                    obtain ⟨r1, r2, r3⟩ := ih rest _ _ _ hrest
                    have hmono : ∀ k, (rfind rps k).isSome = true →
                        (rfind (if lineRuleName (splitTrim s) = "GEOSITE" ∧
                            ¬(rfind rps (toLowerS (linePayload (splitTrim s)))).isSome then
                          (toLowerS (linePayload (splitTrim s)), parsed) :: rps
                        else rps) k).isSome = true := by
                      intro k hk
                      split
                      · rw [rfind_cons]
                        by_cases hkp : k = toLowerS (linePayload (splitTrim s))
                        · rw [if_pos hkp]
                          rfl
                        · rw [if_neg hkp]
                          exact hk
                      · exact hk
                    refine ⟨fun k hk => r1 k (hmono k hk), ?_, ?_⟩
                    · intro v hpl hv
                      rcases List.mem_cons.mp hv with hv | hv
                      · have hf : "GEOSITE," ++ v ++ "," ++ scriptRuleGeoSiteTarget = s := by
                          simpa using hv
                        subst hf
                        have hsp := splitTrim_sentinel v hpl
                        rw [hsp] at hskip
                        have hrn : lineRuleName ["GEOSITE", v, scriptRuleGeoSiteTarget] =
                            "GEOSITE" := rfl
                        have hpv : linePayload ["GEOSITE", v, scriptRuleGeoSiteTarget] = v := rfl
                        have hnotf : ¬(rfind rps
                            (toLowerS (linePayload ["GEOSITE", v, scriptRuleGeoSiteTarget]))).isSome =
                            true := by
                          intro hc
                          exact hskip ⟨rfl, rfl, hc⟩
                        refine r1 _ ?_
                        rw [hsp, if_pos ⟨hrn, hnotf⟩, rfind_cons, hpv, if_pos rfl]
                        rfl
                      · exact r2 v hpl hv
                    · intro v hv
                      simp only [collectIfNames] at hv
                      exact r3 v hv

end Rules

namespace Rules

/-- A successful parseScript returns the incoming raw rules extended with
one GEOSITE sentinel line per provider reference extracted from the
scanned content. -/
theorem parseScript_spec (env : REnv) (engine mainPath mainCodeIn : String)
    (shortcuts : List (String × String)) (readFileRes : Except String String)
    (rawRules : List RawRule) (ms1 : MMap) (rr1 : List RawRule) (content : String)
    (hok : parseScript env engine mainPath mainCodeIn shortcuts readFileRes rawRules =
      .ok (ms1, rr1, content)) :
    rr1 = rawRules ++ (env.frpn content).map
      (fun v => RawRule.line ("GEOSITE," ++ v ++ "," ++ scriptRuleGeoSiteTarget)) := by
  unfold parseScript at hok
  by_cases hg : shortcuts ≠ [] ∧ engine ≠ "expr" ∧ engine ≠ "starlark"
  · rw [if_pos hg] at hok
    exact absurd hok (by simp)
  · rw [if_neg hg] at hok
    cases hmr : (if mainPath ≠ "" then
        (if ¬mainPath.endsWith ".star" then Except.error "script path invalid"
         else readFileRes)
      else Except.ok mainCodeIn) with
    | error e =>
      simp only [hmr] at hok
      exact absurd hok (by simp)
    | ok mc0 =>
      simp only [hmr] at hok
      cases hmm : env.newMatcherF "main" ""
          (if env.trimSpace mc0 = "" then defaultMainCode else env.cleanScript mc0) with
      | error e =>
        simp only [hmm] at hok
        exact absurd hok (by simp)
      | ok u =>
        simp only [hmm] at hok
        cases hsl : shortcutLoop env engine shortcuts [("main", ())]
            ((if env.trimSpace mc0 = "" then defaultMainCode else env.cleanScript mc0) ++
              "\n") with
        | error e =>
          simp only [hsl] at hok
          exact absurd hok (by simp)
        | ok o =>
          obtain ⟨msx, contentx⟩ := o
          simp only [hsl, Except.ok.injEq, Prod.mk.injEq] at hok
          obtain ⟨-, hrr, hc⟩ := hok
          rw [← hc]
          exact hrr.symm

end Rules

/-- C5 counterexample: with the GEOSITE constructor failing (geodata
unavailable), a group rule whose if expression references provider x parses
successfully, no rule provider named x pre-exists, and yet x is not
registered; the claim as stated demands unconditional registration. -/
theorem script_if_register_counterexample :
    Rules.parseRawRules
        ⟨fun s => if s = "IF0" then ["x"] else [], fun _ _ _ _ => .ok 0,
          fun _ _ => .error "geodata", fun _ _ _ => .ok (), fun _ _ => .ok (),
          fun _ => false, fun _ => 0, id, id, id⟩
        ["DIRECT"] 2 [Rules.RawRule.group "g" "IF0" "expr" []] [] [("main", ())] =
      .ok ([0], [], [("rule:g", ()), ("main", ())]) ∧
    "x" ∈ (if "IF0" = "IF0" then ["x"] else ([] : List String)) ∧
    Rules.rfind [] (Rules.toLowerS "x") = none := by
  refine ⟨rfl, by decide, rfl⟩

/-- C5 amended: after a successful parseScript plus parseRawRules run,
every provider name referenced in the main script or a shortcut (the
scanned content) that carries no comma (and, as the extracting regexp
guarantees, no whitespace) is registered as a rule provider under its
lowercased name — a comma-containing name is cut apart by the comma
re-split of the emitted sentinel line, so the guarantee does not extend to
it — and every provider name referenced in some group rule's if
expression, at any depth, is either registered under its lowercased name
or its GEOSITE provider failed to construct and was silently skipped. -/
theorem script_providers_registered (env : Rules.REnv)
    (engine mainPath mainCodeIn : String) (shortcuts : List (String × String))
    (readFileRes : Except String String) (rawRules0 : List Rules.RawRule)
    (proxies : List String) (ms1 : Rules.MMap) (rr1 : List Rules.RawRule)
    (content : String)
    (hps : Rules.parseScript env engine mainPath mainCodeIn shortcuts readFileRes rawRules0 =
      .ok (ms1, rr1, content))
    (fuel : Nat) (out : List Rules.RRule × Rules.RPMap × Rules.MMap)
    (hpr : Rules.parseRawRules env proxies fuel rr1 [] ms1 = .ok out) :
    (∀ v, v ∈ env.frpn content → Rules.plainName v = true →
      (Rules.rfind out.2.1 (Rules.toLowerS v)).isSome = true) ∧
    (∀ v, v ∈ Rules.collectIfNames env rr1 →
      (Rules.rfind out.2.1 (Rules.toLowerS v)).isSome = true ∨
        ∃ e, env.newGEOSITE (Rules.toLowerS v) Rules.scriptRuleGeoSiteTarget = .error e) := by
  have hrr := Rules.parseScript_spec env engine mainPath mainCodeIn shortcuts readFileRes
    rawRules0 ms1 rr1 content hps
  obtain ⟨-, m2, m3⟩ := Rules.parseRawRules_registers env proxies fuel rr1
    [] ms1 out hpr
  refine ⟨?_, m3⟩
  intro v hv hpl
  apply m2 v hpl
  rw [hrr]
  exact List.mem_append_right _ (List.mem_map_of_mem _ hv)

/-- Witness for C5 amended: a main script referencing provider Y through
the extractor gets Y registered under its lowercased name. -/
theorem script_providers_registered_witness :
    (Rules.rfind [(Rules.toLowerS "Y", 0)] (Rules.toLowerS "Y")).isSome = true :=
  (script_providers_registered
    ⟨fun s => if s = "m\n" then ["Y"] else [], fun _ _ _ _ => .ok 0,
      fun _ _ => .ok 1, fun _ _ _ => .ok (), fun _ _ => .ok (),
      fun _ => false, fun _ => 0, id, id, id⟩
    "expr" "" "m" [] (.error "unused")
    [] ["DIRECT"] [("main", ())]
    [Rules.RawRule.line ("GEOSITE," ++ "Y" ++ "," ++ Rules.scriptRuleGeoSiteTarget)] "m\n"
    rfl
    2 ([0], [(Rules.toLowerS "Y", 0)], [("main", ())])
    rfl).1 "Y" (by decide) (by decide)
